import Mathlib

/-!
Mail-store adapter core: SMTP ingestion and IMAP projection.

A shallow embedding of `smtp_backend.go` and `imap_backend.go`, with the
read-flag update of `main.go`.

* A Go `string` is a finite sequence of bytes: `Str := List UInt8`.
* A Go `error` is identified with its message.
* The SQLite store is a record of its two tables; every call into the
  database driver takes its outcome from a plan of driver outcomes, so that
  failing statements and queries are part of the model.
* `uint32(x)` is `x % 2 ^ 32`; the sequence counter of `ListMessages` is a
  `uint32` and wraps.
* A run-time panic (index or slice out of range) is the exit `Exit.panic`.
-/

namespace MailServer

/-! ## Go strings -/

/-- A Go string: a sequence of bytes. -/
abbrev Str := List UInt8

/-- The bytes (UTF-8) of a string literal. -/
def str (s : String) : Str := s.toList.flatMap String.utf8EncodeChar

/-- Prepend a byte to the first piece of a split. -/
def consHead (c : UInt8) : List Str → List Str
  | [] => [[c]]
  | l :: ls => (c :: l) :: ls

/-- The call `strings.Split(s, sep)` for a one-byte separator: the pieces of `s`
between the occurrences of `sep`; one more piece than there are separators. -/
def Split : Str → UInt8 → List Str
  | [], _ => [[]]
  | c :: cs, sep => if c = sep then [] :: Split cs sep else consHead c (Split cs sep)

/-- The call `strings.Join(elems, sep)` for a one-byte separator. -/
def Join : List Str → UInt8 → Str
  | [], _ => []
  | [l], _ => l
  | l :: l2 :: ls, sep => l ++ sep :: Join (l2 :: ls) sep

/-- The call `strings.HasPrefix(s, p)`. -/
def HasPrefix (s p : Str) : Bool := p.isPrefixOf s

/-- Lower-casing of one byte: `A`..`Z` go to `a`..`z`. -/
def lowerByte (c : UInt8) : UInt8 := if 65 ≤ c ∧ c ≤ 90 then c + 32 else c

/-- The call `strings.ToLower(s)`, on the ASCII letters. Go also lower-cases the
letters outside ASCII (and re-encodes invalid bytes as U+FFFD); every such rune
is written with bytes `≥ 0x80` only, except U+212A and U+0130 whose lower case
is `k` and `i`. `SMTPSession.Data` only compares the result with the prefix
`subject:`, which holds none of these bytes, so the comparison is the same. The
registration does not use this definition: it takes `strings.ToLower` as a
parameter. -/
def ToLower (s : Str) : Str := s.map lowerByte

/-- The encodings of the runes for which `unicode.IsSpace` holds. -/
def spaceRunes : List Str :=
  [[0x09], [0x0A], [0x0B], [0x0C], [0x0D], [0x20], [0xC2, 0x85], [0xC2, 0xA0],
   [0xE1, 0x9A, 0x80],
   [0xE2, 0x80, 0x80], [0xE2, 0x80, 0x81], [0xE2, 0x80, 0x82], [0xE2, 0x80, 0x83],
   [0xE2, 0x80, 0x84], [0xE2, 0x80, 0x85], [0xE2, 0x80, 0x86], [0xE2, 0x80, 0x87],
   [0xE2, 0x80, 0x88], [0xE2, 0x80, 0x89], [0xE2, 0x80, 0x8A],
   [0xE2, 0x80, 0xA8], [0xE2, 0x80, 0xA9], [0xE2, 0x80, 0xAF], [0xE2, 0x81, 0x9F],
   [0xE3, 0x80, 0x80]]

/-- The width in bytes of the white-space rune (one of `runes`) that `s` starts
with, `0` when it starts with none. -/
def spaceWidth (runes : List Str) (s : Str) : Nat :=
  match runes.find? (fun r => r.isPrefixOf s) with
  | some r => r.length
  | none => 0

/-- Drop the leading white-space runes; `skip` counts the bytes of the current
rune that are still to be dropped. -/
def trimLeft (runes : List Str) : Nat → Str → Str
  | _, [] => []
  | k + 1, _ :: cs => trimLeft runes k cs
  | 0, c :: cs =>
    match spaceWidth runes (c :: cs) with
    | 0 => c :: cs
    | w + 1 => trimLeft runes w cs

/-- The call `strings.TrimSpace(s)`: `s` without its leading and trailing
white-space runes (`unicode.IsSpace`). A trailing rune is found by reading the
string backwards. -/
def TrimSpace (s : Str) : Str :=
  (trimLeft (spaceRunes.map List.reverse) 0 (trimLeft spaceRunes 0 s).reverse).reverse

/-- The slice `s[n:]`: out of range (a panic) when `n > len(s)`. -/
def sliceFrom (s : Str) (n : Nat) : Option Str :=
  if n ≤ s.length then some (s.drop n) else none

/-- A Go `error`, identified with its message. -/
abbrev Error := String

/-- How a call ends: it returns `nil`, returns an error, or panics. -/
inductive Exit where
  | nil
  | error (e : Error)
  | panic
  deriving DecidableEq, Repr

/-! ## SMTP ingestion: parsing -/

/-- The test `line == "" || line == "\r"` of `SMTPSession.Data`. -/
def isBlank (line : Str) : Bool := line = [] || line = [13]

/-- The header loop of `SMTPSession.Data` (`for i, line := range lines`), from
line index `i` with the subject found so far: the final `(subject, bodyStart)`,
or `none` when the slice `line[8:]` is out of range. -/
def SMTPSession.Data.scan : List Str → Nat → Str → Option (Str × Nat)
  | [], _, subject => some (subject, 0)
  | line :: rest, i, subject =>
    match (if HasPrefix (ToLower line) (str "subject:")
           then (sliceFrom line 8).map TrimSpace else some subject) with
    | none => none
    | some subject =>
      if isBlank line then some (subject, i + 1)
      else SMTPSession.Data.scan rest (i + 1) subject

/-- Lines 62-83 of `SMTPSession.Data`: the `(subject, body)` extracted from the
content read from the stream, or `none` on a panic. -/
def SMTPSession.Data.parse (content : Str) : Option (Str × Str) :=
  let lines := Split content 10
  match SMTPSession.Data.scan lines 0 [] with
  | none => none
  | some (subject, bodyStart) =>
    some (subject, if bodyStart < lines.length then Join (lines.drop bodyStart) 10 else [])

/-- Newline-terminated lines, concatenated: the text of the lines `ls`, each
followed by its `\n`. -/
def unlines : List Str → Str
  | [] => []
  | l :: ls => l ++ 10 :: unlines ls

/-- The subject left by the header loop after the non-blank lines `ls`, starting
from `subject`: each line with the prefix replaces it. -/
def foldSubject : List Str → Str → Str
  | [], subject => subject
  | l :: ls, subject =>
    foldSubject ls
      (if HasPrefix (ToLower l) (str "subject:") then TrimSpace (l.drop 8) else subject)

/-- The header section of a stream: its lines before the first blank line, all
of its lines when it has no blank line. -/
def headerLines (content : Str) : List Str :=
  (Split content 10).takeWhile (fun l => !isBlank l)

/-! ## The store -/

/-- A row of table `users`; `email` is `UNIQUE`. -/
structure User where
  id : Nat
  username : Str
  email : Str
  password : Str
  created : Nat
  deriving DecidableEq, Repr

/-- A row of table `emails`. `id` is the `AUTOINCREMENT` primary key, `date` the
`CURRENT_TIMESTAMP` of the insert (a count of seconds), `read` defaults to
`FALSE`. -/
structure Email where
  id : Nat
  from_email : Str
  to_email : Str
  subject : Str
  body : Str
  date : Nat
  read : Bool
  deriving DecidableEq, Repr

/-- The database behind `*sql.DB`: the two tables (rows in insertion order), the
`sqlite_sequence` counter of table `emails`, and the clock that
`CURRENT_TIMESTAMP` reads. -/
structure DB where
  users : List User
  emails : List Email
  seq : Nat
  clock : Nat
  deriving DecidableEq, Repr

/-- The outcomes of the successive driver calls of one operation, in call
order: `none` when the call goes through, `some e` when the driver reports the
error `e`. Calls beyond the end of the plan go through. -/
abbrev Plan := List (Option Error)

/-- The outcome of the next driver call and the rest of the plan. -/
def Plan.pop : Plan → Option Error × Plan
  | [] => (none, [])
  | o :: plan => (o, plan)

/-- The largest `id` in table `emails`, `0` when it is empty. -/
def maxId : List Email → Nat
  | [] => 0
  | e :: es => max e.id (maxId es)

/-- The id `AUTOINCREMENT` gives to the next row: one more than the largest id
ever used. -/
def DB.nextId (db : DB) : Nat := max db.seq (maxId db.emails) + 1

/-- The statement
`INSERT INTO emails (from_email, to_email, subject, body) VALUES (?, ?, ?, ?)`
under the driver outcome `o`: a failed statement changes nothing. -/
def DB.insertEmail (db : DB) (o : Option Error) (from_email to_email subject body : Str) :
    Except Error DB :=
  match o with
  | some e => .error e
  | none =>
    .ok { db with
          emails := db.emails ++
            [{ id := db.nextId, from_email := from_email, to_email := to_email,
               subject := subject, body := body, date := db.clock, read := false }]
          seq := db.nextId }

/-- The query `SELECT ... FROM users WHERE email = ?` read with `QueryRow.Scan`:
the first matching row, an error when the driver fails or no row matches. -/
def DB.userByEmail (db : DB) (o : Option Error) (email : Str) : Except Error User :=
  match o with
  | some e => .error e
  | none =>
    match db.users.find? (fun u => u.email = email) with
    | some u => .ok u
    | none => .error "sql: no rows in result set"

/-- The query `SELECT COUNT(*) FROM emails WHERE ...` read with
`QueryRow(...).Scan(&count)`, the error dropped: `count` keeps its zero value
when the driver fails. -/
def DB.countEmails (db : DB) (o : Option Error) (p : Email → Bool) : Nat :=
  match o with
  | some _ => 0
  | none => (db.emails.filter p).length

/-- A row as `ListMessages` scans it: `id, from_email, subject, body, date`. -/
structure Row where
  id : Nat
  from_email : Str
  subject : Str
  body : Str
  date : Nat
  deriving DecidableEq, Repr

/-- The columns `ListMessages` selects. -/
def Email.toRow (e : Email) : Row :=
  { id := e.id, from_email := e.from_email, subject := e.subject, body := e.body,
    date := e.date }

/-- The rows of `SELECT ... FROM emails WHERE to_email = ? ORDER BY date DESC`:
newest first; rows of equal date keep their insertion order (SQLite leaves
their order open). -/
def DB.inbox (db : DB) (username : Str) : List Email :=
  (db.emails.filter (fun e => e.to_email = username)).insertionSort
    (fun a b => a.date ≥ b.date)

/-- The query of `ListMessages` under the driver outcome `o`. -/
def DB.queryInbox (db : DB) (o : Option Error) (username : Str) : Except Error (List Row) :=
  match o with
  | some e => .error e
  | none => .ok ((db.inbox username).map Email.toRow)

/-- The conversion `uint32(x)`. -/
def uint32 (x : Nat) : Nat := x % 2 ^ 32

/-! ## SMTP session -/

/-- The per-session state of `SMTPSession`: the fields `from` and `to` (both
reserved words here, hence the underscore). -/
structure SMTPSession where
  from_ : Str
  to_ : List Str
  deriving DecidableEq, Repr

/-- The fan-out loop of `SMTPSession.Data` (`for _, to := range s.to`): one
insert per recipient; the first failing insert ends the call with its error. -/
def SMTPSession.Data.store (from_ subject body : Str) : List Str → DB → Plan → DB × Exit
  | [], db, _ => (db, Exit.nil)
  | rcpt :: rest, db, plan =>
    match db.insertEmail plan.pop.1 from_ rcpt subject body with
    | .error e => (db, Exit.error e)
    | .ok db2 => SMTPSession.Data.store from_ subject body rest db2 plan.pop.2

/-- The method `SMTPSession.Data`. `r` is what `io.ReadAll` returns for the
stream, `plan` the outcomes of the inserts. The result is the session and the
store after the call, and how the call ended. -/
def SMTPSession.Data (s : SMTPSession) (db : DB) (r : Except Error Str) (plan : Plan) :
    SMTPSession × DB × Exit :=
  match r with
  | .error e => (s, db, Exit.error e)
  | .ok content =>
    match SMTPSession.Data.parse content with
    | none => (s, db, Exit.panic)
    | some (subject, body) =>
      let out := SMTPSession.Data.store s.from_ subject body s.to_ db plan
      (s, out.1, out.2)

/-- The method `SMTPSession.AuthPlain`; `compare` is
`bcrypt.CompareHashAndPassword` (`none` for `nil`). -/
def SMTPSession.AuthPlain (compare : Str → Str → Option Error) (db : DB) (plan : Plan)
    (username password : Str) : Exit :=
  match db.userByEmail plan.pop.1 username with
  | .error _ => Exit.error "authentication failed"
  | .ok u =>
    if compare u.password password ≠ none then Exit.error "authentication failed"
    else Exit.nil

/-! ## IMAP backend -/

/-- The struct `IMAPUser` (without its database handle). -/
structure IMAPUser where
  username : Str
  userID : Nat
  deriving DecidableEq, Repr

/-- The method `IMAPUser.Username`. -/
def IMAPUser.Username (u : IMAPUser) : Str := u.username

/-- The method `IMAPBackend.Login`; `compare` is
`bcrypt.CompareHashAndPassword` (`none` for `nil`). -/
def IMAPBackend.Login (compare : Str → Str → Option Error) (db : DB) (plan : Plan)
    (username password : Str) : Except Error IMAPUser :=
  match db.userByEmail plan.pop.1 username with
  | .error _ => .error "authentication failed"
  | .ok u =>
    if compare u.password password ≠ none then .error "authentication failed"
    else .ok { username := username, userID := u.id }

/-- The struct `IMAPMailbox` (without its database handle). -/
structure IMAPMailbox where
  name : Str
  username : Str
  deriving DecidableEq, Repr

/-- The type `imap.StatusItem`, a string. -/
abbrev StatusItem := String

/-- The constant `imap.StatusMessages`. -/
def StatusMessages : StatusItem := "MESSAGES"

/-- The constant `imap.StatusRecent`. -/
def StatusRecent : StatusItem := "RECENT"

/-- The constant `imap.StatusUidNext`. -/
def StatusUidNext : StatusItem := "UIDNEXT"

/-- The constant `imap.StatusUidValidity`. -/
def StatusUidValidity : StatusItem := "UIDVALIDITY"

/-- The constant `imap.StatusUnseen`. -/
def StatusUnseen : StatusItem := "UNSEEN"

/-- The map `MailboxStatus.Items`; every value the code stores is a `uint32`. -/
abbrev StatusItems := StatusItem → Option Nat

/-- The assignment `items[k] = v` on a map. -/
def StatusItems.set (items : StatusItems) (k : StatusItem) (v : Nat) : StatusItems :=
  fun k2 => if k2 = k then some v else items k2

/-- The struct `imap.MailboxStatus`, as far as `Status` fills it. -/
structure MailboxStatus where
  Name : Str
  ReadOnly : Bool
  Items : StatusItems

/-- The loop `for _, item := range items` of `IMAPMailbox.Status`: the `switch`
on the item; the two counting queries take their outcomes from the plan. -/
def IMAPMailbox.Status.loop (m : IMAPMailbox) (db : DB) :
    List StatusItem → Plan → StatusItems → StatusItems
  | [], _, acc => acc
  | item :: rest, plan, acc =>
    if item = StatusMessages then
      let count := db.countEmails plan.pop.1 (fun e => e.to_email = m.username)
      IMAPMailbox.Status.loop m db rest plan.pop.2 (acc.set StatusMessages (uint32 count))
    else if item = StatusUidNext then
      IMAPMailbox.Status.loop m db rest plan (acc.set StatusUidNext (uint32 1000))
    else if item = StatusUidValidity then
      IMAPMailbox.Status.loop m db rest plan (acc.set StatusUidValidity (uint32 1))
    else if item = StatusRecent then
      IMAPMailbox.Status.loop m db rest plan (acc.set StatusRecent (uint32 0))
    else if item = StatusUnseen then
      let count := db.countEmails plan.pop.1
        (fun e => e.to_email = m.username && e.read = false)
      IMAPMailbox.Status.loop m db rest plan.pop.2 (acc.set StatusUnseen (uint32 count))
    else IMAPMailbox.Status.loop m db rest plan acc

/-- The method `IMAPMailbox.Status`: the status and the returned error, which is
always `nil`. -/
def IMAPMailbox.Status (m : IMAPMailbox) (db : DB) (plan : Plan) (items : List StatusItem) :
    MailboxStatus × Exit :=
  ({ Name := m.name, ReadOnly := false,
     Items := IMAPMailbox.Status.loop m db items plan (fun _ => none) }, Exit.nil)

/-- The type `imap.SeqSet`, through its method `Contains`. -/
structure SeqSet where
  Contains : Nat → Bool

/-- The type `imap.FetchItem`, a string. -/
abbrev FetchItem := String

/-- The constant `imap.FetchEnvelope`. -/
def FetchEnvelope : FetchItem := "ENVELOPE"

/-- The constant `imap.FetchBodyStructure`. -/
def FetchBodyStructure : FetchItem := "BODYSTRUCTURE"

/-- The constant `imap.FetchFlags`. -/
def FetchFlags : FetchItem := "FLAGS"

/-- The struct `imap.Address`, as far as `ListMessages` fills it. -/
structure Address where
  PersonalName : Str
  MailboxName : Str
  HostName : Str
  deriving DecidableEq, Repr

/-- The struct `imap.Envelope`, as far as `ListMessages` fills it. -/
structure Envelope where
  Date : Nat
  Subject : Str
  From : List Address
  To : List Address
  deriving DecidableEq, Repr

/-- The struct `imap.BodyStructure`, as far as `ListMessages` fills it. -/
structure BodyStructure where
  MIMEType : Str
  MIMESubType : Str
  deriving DecidableEq, Repr

/-- The struct `imap.Message`, as far as `ListMessages` fills it; `none` is a
field left `nil`. -/
structure Message where
  SeqNum : Nat
  Uid : Nat
  Envelope : Option Envelope
  BodyStructure : Option BodyStructure
  Flags : Option (List Str)
  deriving DecidableEq, Repr

/-- The expression
`{PersonalName: "", MailboxName: strings.Split(a, "@")[0], HostName: strings.Split(a, "@")[1]}`:
`none` when an index is out of range. -/
def splitAddress (a : Str) : Option Address :=
  match (Split a 64)[0]?, (Split a 64)[1]? with
  | some mailbox, some host => some { PersonalName := [], MailboxName := mailbox, HostName := host }
  | _, _ => none

/-- The loop `for _, item := range items` of `ListMessages` on one message:
`none` when building the envelope panics. `now` is `time.Now()`. -/
def IMAPMailbox.ListMessages.fill (m : IMAPMailbox) (now : Nat) (r : Row) :
    List FetchItem → Message → Option Message
  | [], msg => some msg
  | item :: rest, msg =>
    if item = FetchEnvelope then
      match splitAddress r.from_email, splitAddress m.username with
      | some f, some t =>
        IMAPMailbox.ListMessages.fill m now r rest
          { msg with Envelope := some { Date := now, Subject := r.subject, From := [f], To := [t] } }
      | _, _ => none
    else if item = FetchBodyStructure then
      IMAPMailbox.ListMessages.fill m now r rest
        { msg with BodyStructure := some { MIMEType := str "text", MIMESubType := str "plain" } }
    else if item = FetchFlags then
      IMAPMailbox.ListMessages.fill m now r rest { msg with Flags := some [] }
    else IMAPMailbox.ListMessages.fill m now r rest msg

/-- The test `seqSet != nil && !seqSet.Contains(seqNum)` of `ListMessages`. -/
def skips (seqSet : Option SeqSet) (seqNum : Nat) : Bool :=
  match seqSet with
  | none => false
  | some s => !s.Contains seqNum

/-- The literal `&imap.Message{SeqNum: seqNum, Uid: uint32(id)}`. -/
def newMessage (seqNum : Nat) (r : Row) : Message :=
  { SeqNum := seqNum, Uid := uint32 r.id, Envelope := none, BodyStructure := none,
    Flags := none }

/-- The loop `for rows.Next()` of `ListMessages`, from the counter value
`seqNum`: the messages sent on the channel and how the call ends. The
argument `uid` is not read by the code. -/
def IMAPMailbox.ListMessages.rows (m : IMAPMailbox) (now : Nat) (uid : Bool)
    (seqSet : Option SeqSet) (items : List FetchItem) : Nat → List Row → List Message × Exit
  | _, [] => ([], Exit.nil)
  | seqNum, r :: rest =>
    if skips seqSet seqNum then
      IMAPMailbox.ListMessages.rows m now uid seqSet items (uint32 (seqNum + 1)) rest
    else
      match IMAPMailbox.ListMessages.fill m now r items (newMessage seqNum r) with
      | none => ([], Exit.panic)
      | some msg =>
        let out := IMAPMailbox.ListMessages.rows m now uid seqSet items (uint32 (seqNum + 1)) rest
        (msg :: out.1, out.2)

/-- The method `IMAPMailbox.ListMessages`: the messages sent on `ch` and how the
call ends. `plan` gives the outcome of the query, `now` is `time.Now()`. -/
def IMAPMailbox.ListMessages (m : IMAPMailbox) (db : DB) (plan : Plan) (now : Nat)
    (uid : Bool) (seqSet : Option SeqSet) (items : List FetchItem) : List Message × Exit :=
  match db.queryInbox plan.pop.1 m.username with
  | .error e => ([], Exit.error e)
  | .ok rows => IMAPMailbox.ListMessages.rows m now uid seqSet items (uint32 1) rows

/-- The rows a fan-out writes for the recipients `rcpts`, in order: ids
counting up from `id`, one sender, subject, body and date, unread. -/
def fanOutRows (from_ subject body : Str) (date : Nat) : Nat → List Str → List Email
  | _, [] => []
  | id, rcpt :: rest =>
    { id := id, from_email := from_, to_email := rcpt, subject := subject, body := body,
      date := date, read := false } :: fanOutRows from_ subject body date (id + 1) rest

/-- No envelope is built from an address without `@`: when `Envelope` is among
the fetch items, the mailbox owner and the sender of every row have one. -/
abbrev envelopeSafe (m : IMAPMailbox) (items : List FetchItem) (rows : List Row) : Prop :=
  FetchEnvelope ∈ items → 64 ∈ m.username ∧ ∀ r ∈ rows, 64 ∈ r.from_email

/-! ## Further operations -/

/-- The method `SMTPSession.Mail`: it stores the sender, whatever it is (the
options are not read). -/
def SMTPSession.Mail (s : SMTPSession) (from_ : Str) : SMTPSession × Exit :=
  ({ s with from_ := from_ }, Exit.nil)

/-- The method `SMTPSession.Rcpt`: it appends the recipient, whatever it is. -/
def SMTPSession.Rcpt (s : SMTPSession) (rcpt : Str) : SMTPSession × Exit :=
  ({ s with to_ := s.to_ ++ [rcpt] }, Exit.nil)

/-- The statement `UPDATE emails SET read = TRUE WHERE id = ?` of
`emailDetailHandler` under the driver outcome `o`: a failed statement changes
nothing. -/
def DB.markRead (db : DB) (o : Option Error) (id : Nat) : Except Error DB :=
  match o with
  | some e => .error e
  | none =>
    .ok { db with
          emails := db.emails.map (fun e => if e.id = id then { e with read := true } else e) }

/-- A query `Status` sends to the driver, with its parameter. -/
inductive Query where
  | countMessages (username : Str)
  | countUnseen (username : Str)
  deriving DecidableEq, Repr

/-- The queries the loop of `IMAPMailbox.Status` sends to the driver, in order:
the `QueryRow` calls of its `switch`. -/
def IMAPMailbox.Status.sent (m : IMAPMailbox) : List StatusItem → List Query
  | [] => []
  | item :: rest =>
    if item = StatusMessages then
      Query.countMessages m.username :: IMAPMailbox.Status.sent m rest
    else if item = StatusUidNext then IMAPMailbox.Status.sent m rest
    else if item = StatusUidValidity then IMAPMailbox.Status.sent m rest
    else if item = StatusRecent then IMAPMailbox.Status.sent m rest
    else if item = StatusUnseen then
      Query.countUnseen m.username :: IMAPMailbox.Status.sent m rest
    else IMAPMailbox.Status.sent m rest

/-- The five counters of `imap.MailboxStatus` that `Status` knows. -/
def statusCounters : List StatusItem :=
  [StatusMessages, StatusUnseen, StatusUidNext, StatusUidValidity, StatusRecent]

/-- The number of unread rows addressed to `username`. -/
def unseenCount (db : DB) (username : Str) : Nat :=
  db.emails.countP (fun e => e.to_email = username && e.read = false)

/-! ## Session reset, mailboxes and the operations without effect -/

/-- The method `SMTPSession.Reset`: `from` becomes `""` and `to` becomes `nil`. -/
def SMTPSession.Reset (_s : SMTPSession) : SMTPSession :=
  { from_ := [], to_ := [] }

/-- The method `IMAPUser.ListMailboxes`: the one mailbox `INBOX` of the user and
a `nil` error; the argument `subscribed` is not read. -/
def IMAPUser.ListMailboxes (u : IMAPUser) (_subscribed : Bool) : List IMAPMailbox × Exit :=
  ([{ name := str "INBOX", username := u.username }], Exit.nil)

/-- The method `IMAPUser.GetMailbox`. -/
def IMAPUser.GetMailbox (u : IMAPUser) (name : Str) : Except Error IMAPMailbox :=
  if name ≠ str "INBOX" then .error "mailbox not found"
  else .ok { name := name, username := u.username }

/-- The method `IMAPUser.CreateMailbox`: the store after the call and the
returned error. -/
def IMAPUser.CreateMailbox (_u : IMAPUser) (db : DB) (_name : Str) : DB × Exit :=
  (db, Exit.error "operation not supported")

/-- The method `IMAPUser.DeleteMailbox`. -/
def IMAPUser.DeleteMailbox (_u : IMAPUser) (db : DB) (_name : Str) : DB × Exit :=
  (db, Exit.error "operation not supported")

/-- The method `IMAPUser.RenameMailbox`. -/
def IMAPUser.RenameMailbox (_u : IMAPUser) (db : DB) (_existingName _newName : Str) :
    DB × Exit :=
  (db, Exit.error "operation not supported")

/-- The method `IMAPMailbox.CreateMessage`; `body` is the content of the
literal, which the code does not read. -/
def IMAPMailbox.CreateMessage (_m : IMAPMailbox) (db : DB) (_flags : List Str) (_date : Nat)
    (_body : Str) : DB × Exit :=
  (db, Exit.error "operation not supported")

/-- The method `IMAPMailbox.UpdateMessagesFlags`; `operation` is the
`imap.FlagsOp`, a string. -/
def IMAPMailbox.UpdateMessagesFlags (_m : IMAPMailbox) (db : DB) (_uid : Bool)
    (_seqset : Option SeqSet) (_operation : String) (_flags : List Str) : DB × Exit :=
  (db, Exit.nil)

/-- The method `IMAPMailbox.CopyMessages`. -/
def IMAPMailbox.CopyMessages (_m : IMAPMailbox) (db : DB) (_uid : Bool)
    (_seqset : Option SeqSet) (_destName : Str) : DB × Exit :=
  (db, Exit.error "operation not supported")

/-- The method `IMAPMailbox.Expunge`. -/
def IMAPMailbox.Expunge (_m : IMAPMailbox) (db : DB) : DB × Exit :=
  (db, Exit.nil)

/-! ## Registration -/

/-- The list `s.domains` set by `EmailServer.Initialize`. -/
def EmailServer.domains : List Str :=
  [str "localhost.com", str "emailserver.local", str "testmail.dev", str "myemail.local"]

/-- The method `EmailServer.createEmailAddress`. `toLower` is the library
function `strings.ToLower`, whose Unicode case tables are not part of the
repository: it is a parameter, so that what is proved holds whatever it does
to the letters outside ASCII and to invalid bytes. -/
def EmailServer.createEmailAddress (toLower : Str → Str) (username domain : Str) : Str :=
  toLower username ++ str "@" ++ domain

/-- The loop of `registerHandler` over `s.domains`: whether `domain` is one of
the allowed domains. -/
def EmailServer.validDomain (domain : Str) : List Str → Bool
  | [] => false
  | allowedDomain :: rest =>
    if domain = allowedDomain then true else EmailServer.validDomain domain rest

/-- The largest `id` in table `users`, `0` when it is empty. -/
def maxUserId : List User → Nat
  | [] => 0
  | u :: us => max u.id (maxUserId us)

/-- The statement `INSERT INTO users (username, email, password) VALUES (?, ?, ?)`
under the driver outcome `o`: it fails on a driver error, and with a `UNIQUE`
error when the user name or the address is taken; rows are never deleted, so the
next id is one more than the largest. -/
def DB.insertUser (db : DB) (o : Option Error) (username email password : Str) :
    Except Error DB :=
  match o with
  | some e => .error e
  | none =>
    if db.users.any (fun u => u.username = username) then
      .error "UNIQUE constraint failed: users.username"
    else if db.users.any (fun u => u.email = email) then
      .error "UNIQUE constraint failed: users.email"
    else
      .ok { db with
            users := db.users ++
              [{ id := maxUserId db.users + 1, username := username, email := email,
                 password := password, created := db.clock }] }

/-- The call `strings.Contains(s, sub)` on error messages. -/
def Contains (s sub : String) : Bool := decide (sub.toList <:+: s.toList)

/-- The answers of `registerHandler`: the four error pages and the success page
with the new address. -/
inductive RegisterResponse where
  | allFieldsRequired
  | invalidDomain
  | errorCreatingAccount
  | addressExists
  | created (email : Str)
  deriving DecidableEq, Repr

/-- The method `EmailServer.registerHandler` on the form values `username`,
`domain`, `password`: the store after the request and the answer. `toLower` is
`strings.ToLower` (a parameter, as in `createEmailAddress`), `generate` is
`bcrypt.GenerateFromPassword` with the default cost, `plan` gives the outcome
of the insert. -/
def EmailServer.registerHandler (toLower : Str → Str) (generate : Str → Except Error Str)
    (db : DB) (plan : Plan) (formUsername formDomain formPassword : Str) :
    DB × RegisterResponse :=
  let username := TrimSpace (toLower formUsername)
  if username = [] ∨ formDomain = [] ∨ formPassword = [] then
    (db, RegisterResponse.allFieldsRequired)
  else if !EmailServer.validDomain formDomain EmailServer.domains then
    (db, RegisterResponse.invalidDomain)
  else
    let email := EmailServer.createEmailAddress toLower username formDomain
    match generate formPassword with
    | .error _ => (db, RegisterResponse.errorCreatingAccount)
    | .ok hashedPassword =>
      match db.insertUser plan.pop.1 username email hashedPassword with
      | .error e =>
        if Contains e "UNIQUE constraint failed" then (db, RegisterResponse.addressExists)
        else (db, RegisterResponse.errorCreatingAccount)
      | .ok db2 => (db2, RegisterResponse.created email)

/-! ### Facts about `Split` and `Join` -/

theorem Split_ne_nil (s : Str) (sep : UInt8) : Split s sep ≠ [] := by
  cases s with
  | nil => simp [Split]
  | cons c cs =>
    by_cases h : c = sep
    · simp [Split, h]
    · cases hs : Split cs sep <;> simp [Split, h, hs, consHead]

theorem Join_cons_of_ne_nil (l : Str) (ls : List Str) (sep : UInt8) (h : ls ≠ []) :
    Join (l :: ls) sep = l ++ sep :: Join ls sep := by
  cases ls with
  | nil => exact absurd rfl h
  | cons l2 ls => rfl

theorem Join_consHead (c : UInt8) (ls : List Str) (sep : UInt8) (h : ls ≠ []) :
    Join (consHead c ls) sep = c :: Join ls sep := by
  cases ls with
  | nil => exact absurd rfl h
  | cons l ls =>
    cases ls with
    | nil => rfl
    | cons l2 ls => rfl

theorem Join_Split (s : Str) (sep : UInt8) : Join (Split s sep) sep = s := by
  induction s with
  | nil => rfl
  | cons c cs ih =>
    by_cases h : c = sep
    · simp only [Split, h, if_true]
      rw [Join_cons_of_ne_nil _ _ _ (Split_ne_nil cs sep), ih]
      rfl
    · simp only [Split, h, if_false]
      rw [Join_consHead _ _ _ (Split_ne_nil cs sep), ih]

theorem not_mem_of_mem_Split (sep : UInt8) :
    ∀ (s : Str) (l : Str), l ∈ Split s sep → sep ∉ l := by
  intro s
  induction s with
  | nil => intro l hl; simp [Split] at hl; simp [hl]
  | cons c cs ih =>
    intro l hl
    by_cases h : c = sep
    · simp only [Split, h, if_true, List.mem_cons] at hl
      rcases hl with rfl | hl
      · simp
      · exact ih l hl
    · simp only [Split, h, if_false] at hl
      cases hs : Split cs sep with
      | nil => exact absurd hs (Split_ne_nil cs sep)
      | cons l0 ls =>
        rw [hs] at hl ih
        simp only [consHead, List.mem_cons] at hl
        rcases hl with rfl | hl
        · have h0 := ih l0 (by simp)
          simp only [List.mem_cons, not_or]
          exact ⟨fun e => h e.symm, h0⟩
        · exact ih l (by simp [hl])

theorem Join_append_cons (hdr : List Str) (b : Str) (rest : List Str) :
    Join (hdr ++ b :: rest) 10 = unlines hdr ++ Join (b :: rest) 10 := by
  induction hdr with
  | nil => rfl
  | cons l ls ih =>
    rw [List.cons_append, Join_cons_of_ne_nil _ _ _ (by simp), ih]
    simp [unlines]

/-! ### Facts about the header loop -/

theorem length_ToLower (s : Str) : (ToLower s).length = s.length := by
  simp [ToLower]

theorem ToLower_append (s t : Str) : ToLower (s ++ t) = ToLower s ++ ToLower t := by
  simp [ToLower]

theorem length_subject : (str "subject:").length = 8 := by decide

theorem length_of_HasPrefix_subject (line : Str)
    (h : HasPrefix (ToLower line) (str "subject:") = true) : 8 ≤ line.length := by
  have hp : (str "subject:") <+: ToLower line := List.isPrefixOf_iff_prefix.mp h
  have := hp.length_le
  rw [length_ToLower, length_subject] at this
  exact this

theorem not_HasPrefix_of_isBlank (line : Str) (h : isBlank line = true) :
    HasPrefix (ToLower line) (str "subject:") = false := by
  cases hp : HasPrefix (ToLower line) (str "subject:") with
  | false => rfl
  | true =>
    have h8 := length_of_HasPrefix_subject line hp
    simp only [isBlank, Bool.or_eq_true, decide_eq_true_eq] at h
    rcases h with h | h <;> rw [h] at h8 <;> simp at h8

theorem scan_blank (b : Str) (rest : List Str) (i : Nat) (subject : Str)
    (h : isBlank b = true) :
    SMTPSession.Data.scan (b :: rest) i subject = some (subject, i + 1) := by
  simp [SMTPSession.Data.scan, not_HasPrefix_of_isBlank b h, h]

theorem scan_append (hdr : List Str) (h : ∀ l ∈ hdr, isBlank l = false) :
    ∀ (tail : List Str) (i : Nat) (subject : Str),
      SMTPSession.Data.scan (hdr ++ tail) i subject
        = SMTPSession.Data.scan tail (i + hdr.length) (foldSubject hdr subject) := by
  induction hdr with
  | nil => intro tail i subject; rfl
  | cons l ls ih =>
    intro tail i subject
    have hl : isBlank l = false := h l (by simp)
    have ih2 := ih (fun x hx => h x (by simp [hx])) tail (i + 1)
    cases hp : HasPrefix (ToLower l) (str "subject:") with
    | false =>
      show SMTPSession.Data.scan (l :: (ls ++ tail)) i subject = _
      simp only [SMTPSession.Data.scan, hp, hl, foldSubject, List.length_cons]
      simp only [Bool.false_eq_true, if_false]
      rw [ih2]; congr 1; omega
    | true =>
      have h8 := length_of_HasPrefix_subject l hp
      show SMTPSession.Data.scan (l :: (ls ++ tail)) i subject = _
      simp only [SMTPSession.Data.scan, hp, hl, foldSubject, List.length_cons,
        sliceFrom, h8, if_true, Option.map_some']
      simp only [Bool.false_eq_true, if_false]
      rw [ih2]; congr 1; omega

theorem scan_isSome : ∀ (lines : List Str) (i : Nat) (subject : Str),
    ∃ out, SMTPSession.Data.scan lines i subject = some out := by
  intro lines
  induction lines with
  | nil => intro i subject; exact ⟨_, rfl⟩
  | cons l ls ih =>
    intro i subject
    cases hp : HasPrefix (ToLower l) (str "subject:") with
    | false =>
      cases hb : isBlank l with
      | true => exact ⟨(subject, i + 1), by simp [SMTPSession.Data.scan, hp, hb]⟩
      | false =>
        obtain ⟨out, hout⟩ := ih (i + 1) subject
        exact ⟨out, by simp [SMTPSession.Data.scan, hp, hb, hout]⟩
    | true =>
      have h8 := length_of_HasPrefix_subject l hp
      cases hb : isBlank l with
      | true =>
        exact ⟨(TrimSpace (l.drop 8), i + 1),
          by simp [SMTPSession.Data.scan, hp, hb, sliceFrom, h8]⟩
      | false =>
        obtain ⟨out, hout⟩ := ih (i + 1) (TrimSpace (l.drop 8))
        exact ⟨out, by simp [SMTPSession.Data.scan, hp, hb, sliceFrom, h8, hout]⟩

theorem parse_isSome (content : Str) :
    ∃ subject body, SMTPSession.Data.parse content = some (subject, body) := by
  obtain ⟨⟨subject, bodyStart⟩, h⟩ := scan_isSome (Split content 10) 0 []
  exact ⟨subject,
    if bodyStart < (Split content 10).length
      then Join ((Split content 10).drop bodyStart) 10 else [],
    by simp [SMTPSession.Data.parse, h]⟩

theorem exists_first_blank (lines : List Str) (h : ∃ l ∈ lines, isBlank l = true) :
    ∃ hdr b rest, lines = hdr ++ b :: rest ∧ (∀ l ∈ hdr, isBlank l = false) ∧
      isBlank b = true ∧ hdr = lines.takeWhile (fun l => !isBlank l) := by
  induction lines with
  | nil => simp at h
  | cons l ls ih =>
    cases hb : isBlank l with
    | true => exact ⟨[], l, ls, rfl, by simp, hb, by simp [List.takeWhile, hb]⟩
    | false =>
      have h2 : ∃ x ∈ ls, isBlank x = true := by
        obtain ⟨x, hx, hxb⟩ := h
        rcases List.mem_cons.mp hx with rfl | hx
        · rw [hb] at hxb; exact absurd hxb (by simp)
        · exact ⟨x, hx, hxb⟩
      obtain ⟨hdr, b, rest, e, hh, hbb, ht⟩ := ih h2
      refine ⟨l :: hdr, b, rest, by rw [e]; rfl, ?_, hbb, ?_⟩
      · intro x hx
        rcases List.mem_cons.mp hx with rfl | hx
        · exact hb
        · exact hh x hx
      · simp [List.takeWhile, hb, ← ht]

theorem parse_of_first_blank (content : Str) (hdr : List Str) (b : Str) (rest : List Str)
    (e : Split content 10 = hdr ++ b :: rest) (hh : ∀ l ∈ hdr, isBlank l = false)
    (hb : isBlank b = true) :
    SMTPSession.Data.parse content
      = some (foldSubject hdr [], if rest = [] then [] else Join rest 10) := by
  have hs : SMTPSession.Data.scan (Split content 10) 0 []
      = some (foldSubject hdr [], hdr.length + 1) := by
    rw [e, scan_append hdr hh, scan_blank _ _ _ _ hb]; simp
  have hd : (hdr ++ b :: rest).drop (hdr.length + 1) = rest := by
    rw [List.drop_append_eq_append_drop]
    simp
  simp only [SMTPSession.Data.parse, hs]
  rw [e, hd]
  cases rest with
  | nil => simp
  | cons r rs => simp

theorem parse_subject (content : Str) :
    ∃ body, SMTPSession.Data.parse content
      = some (foldSubject (headerLines content) [], body) := by
  by_cases h : ∃ l ∈ Split content 10, isBlank l = true
  · obtain ⟨hdr, b, rest, e, hh, hb, ht⟩ := exists_first_blank _ h
    refine ⟨if rest = [] then [] else Join rest 10, ?_⟩
    rw [parse_of_first_blank content hdr b rest e hh hb, headerLines, ← ht]
  · have hall : ∀ l ∈ Split content 10, isBlank l = false := by
      intro l hl
      cases hb : isBlank l with
      | false => rfl
      | true => exact absurd ⟨l, hl, hb⟩ h
    have ht : headerLines content = Split content 10 := by
      rw [headerLines, List.takeWhile_eq_self_iff]
      intro l hl
      simp [hall l hl]
    have hs := scan_append (Split content 10) hall [] 0 []
    rw [List.append_nil] at hs
    simp only [SMTPSession.Data.scan] at hs
    refine ⟨if 0 < (Split content 10).length
      then Join ((Split content 10).drop 0) 10 else [], ?_⟩
    simp only [SMTPSession.Data.parse, hs, ht]

theorem foldSubject_append (xs ys : List Str) (subject : Str) :
    foldSubject (xs ++ ys) subject = foldSubject ys (foldSubject xs subject) := by
  induction xs generalizing subject with
  | nil => rfl
  | cons x xs ih => exact ih _

theorem foldSubject_of_no_subject (xs : List Str) (subject : Str)
    (h : ∀ l ∈ xs, HasPrefix (ToLower l) (str "subject:") = false) :
    foldSubject xs subject = subject := by
  induction xs generalizing subject with
  | nil => rfl
  | cons x xs ih =>
    have hx := h x (by simp)
    simp only [foldSubject, hx]
    exact ih _ (fun l hl => h l (by simp [hl]))

theorem foldSubject_subject_line (p rest : Str) (subject : Str)
    (hp : ToLower p = str "subject:") (post : List Str) :
    foldSubject ((p ++ rest) :: post) subject = foldSubject post (TrimSpace rest) := by
  have hlen : p.length = 8 := by
    rw [← length_ToLower, hp]; exact length_subject
  have hpre : HasPrefix (ToLower (p ++ rest)) (str "subject:") = true := by
    rw [ToLower_append, hp]
    exact List.isPrefixOf_iff_prefix.mpr (List.prefix_append _ _)
  have hdrop : (p ++ rest).drop 8 = rest := List.drop_left' hlen
  simp only [foldSubject, hpre, if_true, hdrop]

/-! ### Facts about the store and the fan-out -/

theorem maxId_append (xs ys : List Email) : maxId (xs ++ ys) = max (maxId xs) (maxId ys) := by
  induction xs with
  | nil => simp [maxId]
  | cons x xs ih => simp [maxId, ih, max_assoc]

theorem Plan.pop_fst (plan : Plan) : plan.pop.1 = plan.getD 0 none := by
  cases plan <;> rfl

theorem Plan.pop_snd_getD (plan : Plan) (i : Nat) :
    plan.pop.2.getD i none = plan.getD (i + 1) none := by
  cases plan <;> simp [Plan.pop]

theorem insertEmail_none (db : DB) (from_email to_email subject body : Str) :
    ∃ db2, db.insertEmail none from_email to_email subject body = .ok db2 ∧
      db2.emails = db.emails ++
        [{ id := db.nextId, from_email := from_email, to_email := to_email,
           subject := subject, body := body, date := db.clock, read := false }] ∧
      db2.users = db.users ∧ db2.clock = db.clock ∧ db2.nextId = db.nextId + 1 := by
  refine ⟨_, rfl, rfl, rfl, rfl, ?_⟩
  simp only [DB.nextId, maxId_append, maxId]
  omega

theorem store_ok (from_ subject body : Str) :
    ∀ (rcpts : List Str) (db : DB) (plan : Plan),
      (∀ i, i < rcpts.length → plan.getD i none = none) →
      (SMTPSession.Data.store from_ subject body rcpts db plan).2 = Exit.nil ∧
      (SMTPSession.Data.store from_ subject body rcpts db plan).1.emails
        = db.emails ++ fanOutRows from_ subject body db.clock db.nextId rcpts ∧
      (SMTPSession.Data.store from_ subject body rcpts db plan).1.users = db.users ∧
      (SMTPSession.Data.store from_ subject body rcpts db plan).1.clock = db.clock := by
  intro rcpts
  induction rcpts with
  | nil => intro db plan _; simp [SMTPSession.Data.store, fanOutRows]
  | cons r rs ih =>
    intro db plan h
    have h0 : plan.pop.1 = none := by rw [Plan.pop_fst]; exact h 0 (by simp)
    obtain ⟨db2, hi, he, hu, hc, hn⟩ := insertEmail_none db from_ r subject body
    have ih2 := ih db2 plan.pop.2 (fun i hi2 => by
      rw [Plan.pop_snd_getD]; exact h (i + 1) (by simpa using hi2))
    simp only [SMTPSession.Data.store, h0, hi]
    rw [ih2.1, ih2.2.1, ih2.2.2.1, ih2.2.2.2, he, hu, hc, hn]
    simp [fanOutRows]

theorem store_fail (from_ subject body : Str) :
    ∀ (rcpts : List Str) (db : DB) (plan : Plan) (k : Nat) (e : Error),
      k < rcpts.length → (∀ i, i < k → plan.getD i none = none) →
      plan.getD k none = some e →
      (SMTPSession.Data.store from_ subject body rcpts db plan).2 = Exit.error e ∧
      (SMTPSession.Data.store from_ subject body rcpts db plan).1.emails
        = db.emails ++ fanOutRows from_ subject body db.clock db.nextId (rcpts.take k) ∧
      (SMTPSession.Data.store from_ subject body rcpts db plan).1.users = db.users := by
  intro rcpts
  induction rcpts with
  | nil => intro db plan k e hk; simp at hk
  | cons r rs ih =>
    intro db plan k e hk hbefore hfail
    cases k with
    | zero =>
      have h0 : plan.pop.1 = some e := by rw [Plan.pop_fst]; exact hfail
      simp [SMTPSession.Data.store, h0, DB.insertEmail, fanOutRows]
    | succ k =>
      have h0 : plan.pop.1 = none := by rw [Plan.pop_fst]; exact hbefore 0 (by omega)
      obtain ⟨db2, hi, he, hu, hc, hn⟩ := insertEmail_none db from_ r subject body
      have ih2 := ih db2 plan.pop.2 k e (by simpa using hk)
        (fun i hi2 => by rw [Plan.pop_snd_getD]; exact hbefore (i + 1) (by omega))
        (by rw [Plan.pop_snd_getD]; exact hfail)
      simp only [SMTPSession.Data.store, h0, hi]
      rw [ih2.1, ih2.2.1, ih2.2.2, he, hu, hc, hn]
      simp [fanOutRows]

theorem fanOutRows_length (from_ subject body : Str) (date : Nat) :
    ∀ (rcpts : List Str) (id : Nat),
      (fanOutRows from_ subject body date id rcpts).length = rcpts.length := by
  intro rcpts
  induction rcpts with
  | nil => intro id; rfl
  | cons r rs ih => intro id; simp [fanOutRows, ih]

theorem fanOutRows_to (from_ subject body : Str) (date : Nat) :
    ∀ (rcpts : List Str) (id : Nat),
      (fanOutRows from_ subject body date id rcpts).map Email.to_email = rcpts := by
  intro rcpts
  induction rcpts with
  | nil => intro id; rfl
  | cons r rs ih => intro id; simp [fanOutRows, ih]

theorem fanOutRows_same (from_ subject body : Str) (date : Nat) :
    ∀ (rcpts : List Str) (id : Nat),
      ∀ x ∈ fanOutRows from_ subject body date id rcpts,
        x.from_email = from_ ∧ x.subject = subject ∧ x.body = body ∧ x.read = false := by
  intro rcpts
  induction rcpts with
  | nil => intro id x hx; simp [fanOutRows] at hx
  | cons r rs ih =>
    intro id x hx
    simp only [fanOutRows, List.mem_cons] at hx
    rcases hx with rfl | hx
    · simp
    · exact ih _ x hx

/-! ### Facts about the account lookup -/

theorem find_user_of_unique (users : List User) (email : Str)
    (huniq : users.Pairwise (fun a b => a.email ≠ b.email)) (a : User) (ha : a ∈ users)
    (he : a.email = email) :
    users.find? (fun u => u.email = email) = some a := by
  induction users with
  | nil => simp at ha
  | cons u us ih =>
    rw [List.pairwise_cons] at huniq
    rcases List.mem_cons.mp ha with rfl | hmem
    · simp [List.find?, he]
    · have hne : u.email ≠ email := by
        rw [← he]; exact huniq.1 a hmem
      simp only [List.find?, hne, decide_False]
      exact ih huniq.2 hmem

theorem find_user_some (users : List User) (email : Str) (a : User)
    (h : users.find? (fun u => u.email = email) = some a) : a ∈ users ∧ a.email = email := by
  refine ⟨List.mem_of_find?_eq_some h, ?_⟩
  have := List.find?_some h
  simpa using this

theorem find_user_none (users : List User) (email : Str)
    (h : ∀ a ∈ users, a.email ≠ email) :
    users.find? (fun u => u.email = email) = none := by
  rw [List.find?_eq_none]
  intro a ha
  simpa using h a ha

/-! ### Facts about `ListMessages` -/

theorem length_consHead (c : UInt8) (ls : List Str) (h : ls ≠ []) :
    (consHead c ls).length = ls.length := by
  cases ls with
  | nil => exact absurd rfl h
  | cons l ls => rfl

theorem length_Split (s : Str) (sep : UInt8) : (Split s sep).length = s.count sep + 1 := by
  induction s with
  | nil => rfl
  | cons c cs ih =>
    by_cases h : c = sep
    · subst h
      simp [Split, ih]
    · simp only [Split, h, if_false]
      rw [length_consHead _ _ (Split_ne_nil cs sep), ih]
      simp [List.count_cons, h]

theorem splitAddress_of_at (a : Str) (h : 64 ∈ a) : ∃ addr, splitAddress a = some addr := by
  have hlen : 2 ≤ (Split a 64).length := by
    rw [length_Split]
    have := List.count_pos_iff.mpr h
    omega
  cases hs : Split a 64 with
  | nil => rw [hs] at hlen; simp at hlen
  | cons x xs =>
    cases xs with
    | nil => rw [hs] at hlen; simp at hlen
    | cons y ys =>
      exact ⟨{ PersonalName := [], MailboxName := x, HostName := y },
        by simp [splitAddress, hs]⟩

theorem fill_isSome (m : IMAPMailbox) (now : Nat) (r : Row) :
    ∀ (items : List FetchItem) (msg : Message),
      (FetchEnvelope ∈ items → 64 ∈ m.username ∧ 64 ∈ r.from_email) →
      ∃ out, IMAPMailbox.ListMessages.fill m now r items msg = some out := by
  intro items
  induction items with
  | nil => intro msg _; exact ⟨msg, rfl⟩
  | cons item rest ih =>
    intro msg h
    simp only [IMAPMailbox.ListMessages.fill]
    split
    · rename_i he
      obtain ⟨hu, hf⟩ := h (by simp [he])
      obtain ⟨f, hf2⟩ := splitAddress_of_at _ hf
      obtain ⟨t, ht2⟩ := splitAddress_of_at _ hu
      simp only [hf2, ht2]
      exact ih _ (fun _ => ⟨hu, hf⟩)
    · have hrest : FetchEnvelope ∈ rest → 64 ∈ m.username ∧ 64 ∈ r.from_email :=
        fun hm => h (List.mem_cons_of_mem _ hm)
      split
      · exact ih _ hrest
      · split
        · exact ih _ hrest
        · exact ih _ hrest

theorem fill_SeqNum_Uid (m : IMAPMailbox) (now : Nat) (r : Row) :
    ∀ (items : List FetchItem) (msg out : Message),
      IMAPMailbox.ListMessages.fill m now r items msg = some out →
      out.SeqNum = msg.SeqNum ∧ out.Uid = msg.Uid := by
  intro items
  induction items with
  | nil =>
    intro msg out h
    simp only [IMAPMailbox.ListMessages.fill, Option.some.injEq] at h
    subst h; exact ⟨rfl, rfl⟩
  | cons item rest ih =>
    intro msg out h
    simp only [IMAPMailbox.ListMessages.fill] at h
    split at h
    · split at h
      · have h2 := ih _ _ h; exact h2
      · exact absurd h (by simp)
    · split at h
      · have h2 := ih _ _ h; exact h2
      · split at h
        · have h2 := ih _ _ h; exact h2
        · exact ih _ _ h

theorem uint32_succ (c : Nat) : uint32 (uint32 c + 1) = uint32 (c + 1) := by
  simp [uint32, Nat.add_mod]

theorem uint32_of_lt (c : Nat) (h : c < 2 ^ 32) : uint32 c = c := Nat.mod_eq_of_lt h

theorem rows_spec (m : IMAPMailbox) (now : Nat) (uid : Bool) (seqSet : Option SeqSet)
    (items : List FetchItem) :
    ∀ (rows : List Row) (c : Nat), envelopeSafe m items rows →
      (IMAPMailbox.ListMessages.rows m now uid seqSet items (uint32 c) rows).2 = Exit.nil ∧
      (IMAPMailbox.ListMessages.rows m now uid seqSet items (uint32 c) rows).1.map some
        = ((rows.enumFrom c).filter (fun p => !skips seqSet (uint32 p.1))).map
            (fun p => IMAPMailbox.ListMessages.fill m now p.2 items
              (newMessage (uint32 p.1) p.2)) ∧
      (IMAPMailbox.ListMessages.rows m now uid seqSet items (uint32 c) rows).1.map
          (fun x => (x.SeqNum, x.Uid))
        = ((rows.enumFrom c).filter (fun p => !skips seqSet (uint32 p.1))).map
            (fun p => (uint32 p.1, uint32 p.2.id)) := by
  intro rows
  induction rows with
  | nil => intro c _; simp [IMAPMailbox.ListMessages.rows]
  | cons r rest ih =>
    intro c hsafe
    have hrest : envelopeSafe m items rest := fun hm =>
      ⟨(hsafe hm).1, fun x hx => (hsafe hm).2 x (List.mem_cons_of_mem _ hx)⟩
    have ih2 := ih (c + 1) hrest
    cases hsk : skips seqSet (uint32 c) with
    | true =>
      simp only [IMAPMailbox.ListMessages.rows, hsk, if_true, uint32_succ, List.enumFrom_cons,
        List.filter_cons, Bool.not_true, Bool.false_eq_true, if_false]
      exact ih2
    | false =>
      obtain ⟨msg, hmsg⟩ := fill_isSome m now r items (newMessage (uint32 c) r)
        (fun hm => ⟨(hsafe hm).1, (hsafe hm).2 r (by simp)⟩)
      have hsu := fill_SeqNum_Uid m now r items _ _ hmsg
      simp only [newMessage] at hmsg hsu ih2
      simp only [IMAPMailbox.ListMessages.rows, newMessage, hsk, Bool.false_eq_true, if_false,
        hmsg, uint32_succ, List.enumFrom_cons, List.filter_cons, Bool.not_false, if_true,
        List.map_cons, ih2.1, ih2.2.1, ih2.2.2, hsu.1, hsu.2]
      exact ⟨trivial, trivial, trivial⟩

theorem rows_uid_irrelevant (m : IMAPMailbox) (now : Nat) (seqSet : Option SeqSet)
    (items : List FetchItem) :
    ∀ (rows : List Row) (c : Nat),
      IMAPMailbox.ListMessages.rows m now true seqSet items c rows
        = IMAPMailbox.ListMessages.rows m now false seqSet items c rows := by
  intro rows
  induction rows with
  | nil => intro c; rfl
  | cons r rest ih =>
    intro c
    simp only [IMAPMailbox.ListMessages.rows, ih]

theorem uint32_position (rows : List Row) (h : rows.length < 2 ^ 32) :
    ∀ p ∈ rows.enumFrom 1, uint32 p.1 = p.1 := by
  intro p hp
  have := List.mem_enumFrom (x := p.2) (i := p.1) hp
  exact uint32_of_lt _ (by omega)

theorem rows_all_length (m : IMAPMailbox) (now : Nat) (uid : Bool) (items : List FetchItem)
    (rows : List Row) (c : Nat) (hsafe : envelopeSafe m items rows) :
    (IMAPMailbox.ListMessages.rows m now uid none items (uint32 c) rows).1.length
      = rows.length := by
  have h := (rows_spec m now uid none items rows c hsafe).2.2
  have hl := congrArg List.length h
  simpa [skips] using hl

/-! ### Facts about `Status` and the mailbox query -/

theorem Plan.pop_all_none (plan : Plan) (h : ∀ i, plan.getD i none = none) :
    plan.pop.1 = none ∧ ∀ i, plan.pop.2.getD i none = none :=
  ⟨by rw [Plan.pop_fst]; exact h 0, fun i => by rw [Plan.pop_snd_getD]; exact h (i + 1)⟩

theorem status_loop_messages (m : IMAPMailbox) (db : DB) :
    ∀ (items : List StatusItem) (plan : Plan) (acc : StatusItems),
      (∀ i, plan.getD i none = none) →
      IMAPMailbox.Status.loop m db items plan acc StatusMessages
        = if StatusMessages ∈ items
          then some (uint32 (db.emails.filter (fun e => e.to_email = m.username)).length)
          else acc StatusMessages := by
  intro items
  induction items with
  | nil => intro plan acc _; simp [IMAPMailbox.Status.loop]
  | cons item rest ih =>
    intro plan acc h
    obtain ⟨h0, h1⟩ := Plan.pop_all_none plan h
    simp only [IMAPMailbox.Status.loop]
    split
    · rename_i he
      rw [ih _ _ h1]
      simp [he, StatusItems.set, DB.countEmails, h0]
    · rename_i he
      have hmem : StatusMessages ∈ item :: rest ↔ StatusMessages ∈ rest := by
        simp [Ne.symm he]
      simp only [hmem]
      split
      · rw [ih _ _ h]
        have : StatusMessages ≠ StatusUidNext := by decide
        simp [StatusItems.set, this]
      · split
        · rw [ih _ _ h]
          have : StatusMessages ≠ StatusUidValidity := by decide
          simp [StatusItems.set, this]
        · split
          · rw [ih _ _ h]
            have : StatusMessages ≠ StatusRecent := by decide
            simp [StatusItems.set, this]
          · split
            · rw [ih _ _ h1]
              have : StatusMessages ≠ StatusUnseen := by decide
              simp [StatusItems.set, this]
            · exact ih _ _ h

theorem inbox_length (db : DB) (username : Str) :
    (db.inbox username).length
      = (db.emails.filter (fun e => e.to_email = username)).length := by
  simp [DB.inbox, List.length_insertionSort]

theorem list_messages_all_length (m : IMAPMailbox) (db : DB) (plan : Plan) (now : Nat)
    (uid : Bool) (items : List FetchItem) (hq : plan.getD 0 none = none)
    (hsafe : envelopeSafe m items ((db.inbox m.username).map Email.toRow)) :
    (IMAPMailbox.ListMessages m db plan now uid none items).1.length
      = (db.emails.filter (fun e => e.to_email = m.username)).length := by
  have h0 : plan.pop.1 = none := by rw [Plan.pop_fst]; exact hq
  simp only [IMAPMailbox.ListMessages, DB.queryInbox, h0]
  rw [rows_all_length m now uid items _ 1 hsafe, List.length_map, inbox_length]

theorem seqNum_at (m : IMAPMailbox) (now : Nat) (uid : Bool) (items : List FetchItem)
    (rows : List Row) (hsafe : envelopeSafe m items rows) (i : Nat) (hi : i < rows.length) :
    ((IMAPMailbox.ListMessages.rows m now uid none items (uint32 1) rows).1.map
        (fun x => x.SeqNum))[i]? = some (uint32 (1 + i)) := by
  have h := (rows_spec m now uid none items rows 1 hsafe).2.2
  have h2 := congrArg (List.map Prod.fst) h
  simp only [List.map_map] at h2
  have e : (Prod.fst ∘ fun x : Message => (x.SeqNum, x.Uid)) = fun x => x.SeqNum := rfl
  rw [e] at h2
  rw [h2]
  simp [skips, List.getElem?_enumFrom, List.getElem?_eq_getElem hi]

theorem filter_table (n : Nat) (f : Nat → Email) (p : Email → Bool) (h : ∀ i, p (f i) = true) :
    (((List.range n).map f).filter p).length = n := by
  rw [List.filter_eq_self.mpr]
  · simp
  · intro a ha
    obtain ⟨i, _, rfl⟩ := List.mem_map.mp ha
    exact h i

theorem big_mailbox (n : Nat) (from_email to_email subject body : Str) :
    (IMAPMailbox.Status ⟨str "INBOX", to_email⟩
        ⟨[], (List.range n).map
          (fun i => ⟨i + 1, from_email, to_email, subject, body, 0, false⟩), n, 0⟩ []
        [StatusMessages]).1.Items StatusMessages = some (uint32 n) ∧
    (IMAPMailbox.ListMessages ⟨str "INBOX", to_email⟩
        ⟨[], (List.range n).map
          (fun i => ⟨i + 1, from_email, to_email, subject, body, 0, false⟩), n, 0⟩ []
        0 false none []).1.length = n := by
  constructor
  · simp only [IMAPMailbox.Status]
    rw [status_loop_messages _ _ _ _ _ (fun i => by simp)]
    rw [filter_table n _ _ (fun i => by simp)]
    simp
  · rw [list_messages_all_length _ _ _ _ _ _ (by simp) (fun h => absurd h (by simp))]
    exact filter_table n _ _ (fun i => by simp)

theorem big_row_list (n : Nat) (from_email subject body : Str) (i : Nat) (hi : i < n) :
    ((IMAPMailbox.ListMessages.rows ⟨str "INBOX", str "b@y.com"⟩ 0 false none [] (uint32 1)
        ((List.range n).map (fun k => ⟨k + 1, from_email, subject, body, 0⟩))).1.map
        (fun x => x.SeqNum))[i]? = some (uint32 (1 + i)) :=
  seqNum_at _ _ _ _ _ (fun h => absurd h (by simp)) i (by simpa using hi)

/-! ### More facts about `Status` -/

theorem status_loop_unseen (m : IMAPMailbox) (db : DB) :
    ∀ (items : List StatusItem) (plan : Plan) (acc : StatusItems),
      (∀ i, plan.getD i none = none) →
      IMAPMailbox.Status.loop m db items plan acc StatusUnseen
        = if StatusUnseen ∈ items
          then some (uint32 (unseenCount db m.username))
          else acc StatusUnseen := by
  intro items
  induction items with
  | nil => intro plan acc _; simp [IMAPMailbox.Status.loop]
  | cons item rest ih =>
    intro plan acc h
    obtain ⟨h0, h1⟩ := Plan.pop_all_none plan h
    simp only [IMAPMailbox.Status.loop]
    split
    · rename_i he
      have hne : StatusUnseen ≠ StatusMessages := by decide
      have hmem : StatusUnseen ∈ item :: rest ↔ StatusUnseen ∈ rest := by
        simp [he, hne]
      simp only [hmem]
      rw [ih _ _ h1]
      simp [StatusItems.set, hne]
    · split
      · rename_i he
        have hne : StatusUnseen ≠ StatusUidNext := by decide
        have hmem : StatusUnseen ∈ item :: rest ↔ StatusUnseen ∈ rest := by
          simp [he, hne]
        simp only [hmem]
        rw [ih _ _ h]
        simp [StatusItems.set, hne]
      · split
        · rename_i he
          have hne : StatusUnseen ≠ StatusUidValidity := by decide
          have hmem : StatusUnseen ∈ item :: rest ↔ StatusUnseen ∈ rest := by
            simp [he, hne]
          simp only [hmem]
          rw [ih _ _ h]
          simp [StatusItems.set, hne]
        · split
          · rename_i he
            have hne : StatusUnseen ≠ StatusRecent := by decide
            have hmem : StatusUnseen ∈ item :: rest ↔ StatusUnseen ∈ rest := by
              simp [he, hne]
            simp only [hmem]
            rw [ih _ _ h]
            simp [StatusItems.set, hne]
          · split
            · rename_i he
              rw [ih _ _ h1]
              simp [he, StatusItems.set, DB.countEmails, h0, unseenCount,
                List.countP_eq_length_filter]
            · rename_i he
              have hmem : StatusUnseen ∈ item :: rest ↔ StatusUnseen ∈ rest := by
                simp [Ne.symm he]
              simp only [hmem]
              exact ih _ _ h

theorem unseenCount_cons (db : DB) (username : Str) (e : Email) :
    unseenCount { db with emails := e :: db.emails } username
      = unseenCount db username + (if e.to_email = username ∧ e.read = false then 1 else 0) := by
  simp only [unseenCount, List.countP_cons]
  by_cases h1 : e.to_email = username <;> by_cases h2 : e.read = false <;> simp [h1, h2]

theorem countP_table (n : Nat) (f : Nat → Email) (p : Email → Bool) (h : ∀ i, p (f i) = true) :
    ((List.range n).map f).countP p = n := by
  rw [List.countP_eq_length_filter]
  exact filter_table n f p h

theorem big_mailbox_unseen (n : Nat) (from_email to_email subject body : Str) :
    unseenCount
        ⟨[], (List.range n).map
          (fun i => ⟨i + 1, from_email, to_email, subject, body, 0, false⟩), n, 0⟩ to_email = n ∧
    (IMAPMailbox.Status ⟨str "INBOX", to_email⟩
        ⟨[], (List.range n).map
          (fun i => ⟨i + 1, from_email, to_email, subject, body, 0, false⟩), n, 0⟩ []
        [StatusUnseen]).1.Items StatusUnseen = some (uint32 n) := by
  have hc : unseenCount
        ⟨[], (List.range n).map
          (fun i => ⟨i + 1, from_email, to_email, subject, body, 0, false⟩), n, 0⟩ to_email
      = n := by
    simp only [unseenCount]
    exact countP_table n _ _ (fun i => by simp)
  refine ⟨hc, ?_⟩
  simp only [IMAPMailbox.Status]
  rw [status_loop_unseen _ _ _ _ _ (fun i => by simp), hc]
  simp

/-! ### Facts about the envelope addresses and the body without separator -/

theorem Split_append_sep (l s : Str) (sep : UInt8) (h : sep ∉ l) :
    Split (l ++ sep :: s) sep = l :: Split s sep := by
  induction l with
  | nil => simp [Split]
  | cons c cs ih =>
    have hc : c ≠ sep := fun e => h (by simp [e])
    have hcs : sep ∉ cs := fun e => h (List.mem_cons_of_mem _ e)
    show Split (c :: (cs ++ sep :: s)) sep = _
    simp only [Split, hc, if_false, ih hcs, consHead]

theorem Split_of_not_mem (l : Str) (sep : UInt8) (h : sep ∉ l) : Split l sep = [l] := by
  induction l with
  | nil => rfl
  | cons c cs ih =>
    have hc : c ≠ sep := fun e => h (by simp [e])
    have hcs : sep ∉ cs := fun e => h (List.mem_cons_of_mem _ e)
    simp only [Split, hc, if_false, ih hcs, consHead]

theorem splitAddress_first_two (mailbox host tail : Str) (h1 : 64 ∉ mailbox) (h2 : 64 ∉ host)
    (ht : tail = [] ∨ ∃ t, tail = 64 :: t) :
    splitAddress (mailbox ++ 64 :: (host ++ tail))
      = some { PersonalName := [], MailboxName := mailbox, HostName := host } := by
  rcases ht with rfl | ⟨t, rfl⟩
  · simp [splitAddress, Split_append_sep _ _ _ h1, Split_of_not_mem _ _ h2]
  · simp [splitAddress, Split_append_sep _ _ _ h1, Split_append_sep _ _ _ h2]

theorem splitAddress_none (a : Str) (h : 64 ∉ a) : splitAddress a = none := by
  simp [splitAddress, Split_of_not_mem _ _ h]

theorem parse_no_blank (content : Str) (h : ∀ l ∈ Split content 10, isBlank l = false) :
    SMTPSession.Data.parse content = some (foldSubject (Split content 10) [], content) := by
  have hs := scan_append (Split content 10) h [] 0 []
  rw [List.append_nil] at hs
  simp only [SMTPSession.Data.scan] at hs
  have hpos : 0 < (Split content 10).length :=
    List.length_pos.mpr (Split_ne_nil content 10)
  simp only [SMTPSession.Data.parse, hs, hpos, if_true, List.drop_zero, Join_Split]

/-! ### Which counters `Status` fills, and which queries it sends -/

theorem mem_statusCounters (k : StatusItem) :
    k ∈ statusCounters ↔ k = StatusMessages ∨ k = StatusUnseen ∨ k = StatusUidNext ∨
      k = StatusUidValidity ∨ k = StatusRecent := by
  simp [statusCounters]

theorem set_isSome (acc : StatusItems) (k0 : StatusItem) (v : Nat) (k : StatusItem) :
    ((acc.set k0 v) k).isSome = true ↔ k = k0 ∨ (acc k).isSome = true := by
  by_cases h : k = k0 <;> simp [StatusItems.set, h]

theorem status_loop_isSome (m : IMAPMailbox) (db : DB) (k : StatusItem) :
    ∀ (items : List StatusItem) (plan : Plan) (acc : StatusItems),
      (IMAPMailbox.Status.loop m db items plan acc k).isSome = true ↔
        (k ∈ items ∧ k ∈ statusCounters) ∨ (acc k).isSome = true := by
  intro items
  induction items with
  | nil => intro plan acc; simp [IMAPMailbox.Status.loop]
  | cons item rest ih =>
    intro plan acc
    simp only [IMAPMailbox.Status.loop]
    split
    · rename_i he
      rw [ih, set_isSome, mem_statusCounters, List.mem_cons, he]
      constructor
      · rintro (h | h | h)
        · exact Or.inl ⟨Or.inr h.1, h.2⟩
        · exact Or.inl ⟨Or.inl h, Or.inl h⟩
        · exact Or.inr h
      · rintro (⟨h1 | h1, h2⟩ | h)
        · exact Or.inr (Or.inl h1)
        · exact Or.inl ⟨h1, h2⟩
        · exact Or.inr (Or.inr h)
    · split
      · rename_i he
        rw [ih, set_isSome, mem_statusCounters, List.mem_cons, he]
        constructor
        · rintro (h | h | h)
          · exact Or.inl ⟨Or.inr h.1, h.2⟩
          · exact Or.inl ⟨Or.inl h, Or.inr (Or.inr (Or.inl h))⟩
          · exact Or.inr h
        · rintro (⟨h1 | h1, h2⟩ | h)
          · exact Or.inr (Or.inl h1)
          · exact Or.inl ⟨h1, h2⟩
          · exact Or.inr (Or.inr h)
      · split
        · rename_i he
          rw [ih, set_isSome, mem_statusCounters, List.mem_cons, he]
          constructor
          · rintro (h | h | h)
            · exact Or.inl ⟨Or.inr h.1, h.2⟩
            · exact Or.inl ⟨Or.inl h, Or.inr (Or.inr (Or.inr (Or.inl h)))⟩
            · exact Or.inr h
          · rintro (⟨h1 | h1, h2⟩ | h)
            · exact Or.inr (Or.inl h1)
            · exact Or.inl ⟨h1, h2⟩
            · exact Or.inr (Or.inr h)
        · split
          · rename_i he
            rw [ih, set_isSome, mem_statusCounters, List.mem_cons, he]
            constructor
            · rintro (h | h | h)
              · exact Or.inl ⟨Or.inr h.1, h.2⟩
              · exact Or.inl ⟨Or.inl h, Or.inr (Or.inr (Or.inr (Or.inr h)))⟩
              · exact Or.inr h
            · rintro (⟨h1 | h1, h2⟩ | h)
              · exact Or.inr (Or.inl h1)
              · exact Or.inl ⟨h1, h2⟩
              · exact Or.inr (Or.inr h)
          · split
            · rename_i he
              rw [ih, set_isSome, mem_statusCounters, List.mem_cons, he]
              constructor
              · rintro (h | h | h)
                · exact Or.inl ⟨Or.inr h.1, h.2⟩
                · exact Or.inl ⟨Or.inl h, Or.inr (Or.inl h)⟩
                · exact Or.inr h
              · rintro (⟨h1 | h1, h2⟩ | h)
                · exact Or.inr (Or.inl h1)
                · exact Or.inl ⟨h1, h2⟩
                · exact Or.inr (Or.inr h)
            · rename_i h1 h2 h3 h4 h5
              rw [ih, mem_statusCounters, List.mem_cons]
              constructor
              · rintro (h | h)
                · exact Or.inl ⟨Or.inr h.1, h.2⟩
                · exact Or.inr h
              · rintro (⟨h | h, hc⟩ | h)
                · subst h
                  rcases hc with hc | hc | hc | hc | hc
                  · exact absurd hc h1
                  · exact absurd hc h5
                  · exact absurd hc h2
                  · exact absurd hc h3
                  · exact absurd hc h4
                · exact Or.inl ⟨h, hc⟩
                · exact Or.inr h

theorem status_sent_eq (m : IMAPMailbox) (items : List StatusItem) :
    IMAPMailbox.Status.sent m items
      = (items.filter (fun i => i = StatusMessages || i = StatusUnseen)).map
          (fun i => if i = StatusMessages then Query.countMessages m.username
                    else Query.countUnseen m.username) := by
  induction items with
  | nil => rfl
  | cons item rest ih =>
    simp only [IMAPMailbox.Status.sent]
    split
    · rename_i he
      subst he
      simp [ih]
    · rename_i h1
      split
      · rename_i he
        subst he
        have hf : (decide (StatusUidNext = StatusMessages)
            || decide (StatusUidNext = StatusUnseen)) = false := by decide
        rw [ih, List.filter_cons, hf]
        rfl
      · split
        · rename_i he
          subst he
          have hf : (decide (StatusUidValidity = StatusMessages)
              || decide (StatusUidValidity = StatusUnseen)) = false := by decide
          rw [ih, List.filter_cons, hf]
          rfl
        · split
          · rename_i he
            subst he
            have hf : (decide (StatusRecent = StatusMessages)
                || decide (StatusRecent = StatusUnseen)) = false := by decide
            rw [ih, List.filter_cons, hf]
            rfl
          · split
            · rename_i he
              subst he
              have hf : (decide (StatusUnseen = StatusMessages)
                  || decide (StatusUnseen = StatusUnseen)) = true := by decide
              have hn : ¬ StatusUnseen = StatusMessages := by decide
              rw [ih, List.filter_cons, hf]
              simp [hn]
            · rename_i h5
              have hf : (decide (item = StatusMessages)
                  || decide (item = StatusUnseen)) = false := by simp [h1, h5]
              rw [ih, List.filter_cons, hf]
              rfl

theorem status_loop_reads (m : IMAPMailbox) (db : DB) :
    ∀ (items : List StatusItem) (plan plan2 : Plan) (acc : StatusItems),
      (∀ i, i < (IMAPMailbox.Status.sent m items).length →
        plan.getD i none = plan2.getD i none) →
      IMAPMailbox.Status.loop m db items plan acc
        = IMAPMailbox.Status.loop m db items plan2 acc := by
  intro items
  induction items with
  | nil => intro plan plan2 acc _; rfl
  | cons item rest ih =>
    intro plan plan2 acc h
    simp only [IMAPMailbox.Status.sent] at h
    simp only [IMAPMailbox.Status.loop]
    split
    · rename_i he
      simp only [he, if_true, List.length_cons] at h
      have h0 : plan.pop.1 = plan2.pop.1 := by
        rw [Plan.pop_fst, Plan.pop_fst]; exact h 0 (by omega)
      rw [h0]
      exact ih _ _ _ (fun i hi => by
        rw [Plan.pop_snd_getD, Plan.pop_snd_getD]; exact h (i + 1) (by omega))
    · rename_i h1
      simp only [h1, if_false] at h
      split
      · rename_i he
        simp only [he, if_true] at h
        exact ih _ _ _ h
      · rename_i h2
        simp only [h2, if_false] at h
        split
        · rename_i he
          simp only [he, if_true] at h
          exact ih _ _ _ h
        · rename_i h3
          simp only [h3, if_false] at h
          split
          · rename_i he
            simp only [he, if_true] at h
            exact ih _ _ _ h
          · rename_i h4
            simp only [h4, if_false] at h
            split
            · rename_i he
              simp only [he, if_true, List.length_cons] at h
              have h0 : plan.pop.1 = plan2.pop.1 := by
                rw [Plan.pop_fst, Plan.pop_fst]; exact h 0 (by omega)
              rw [h0]
              exact ih _ _ _ (fun i hi => by
                rw [Plan.pop_snd_getD, Plan.pop_snd_getD]; exact h (i + 1) (by omega))
            · rename_i h5
              simp only [h5, if_false] at h
              exact ih _ _ _ h

/-! ### Facts about the read flag and about inserting a row into a listing -/

theorem le_maxId (es : List Email) (e : Email) (h : e ∈ es) : e.id ≤ maxId es := by
  induction es with
  | nil => simp at h
  | cons x xs ih =>
    rcases List.mem_cons.mp h with rfl | h
    · simp [maxId]
    · have := ih h
      simp only [maxId]
      omega

theorem id_lt_nextId (db : DB) (e : Email) (h : e ∈ db.emails) : e.id < db.nextId := by
  have := le_maxId db.emails e h
  simp only [DB.nextId]
  omega

theorem map_markRead_old (db : DB) (k : Nat) (h : db.nextId ≤ k) :
    db.emails.map (fun e => if e.id = k then { e with read := true } else e) = db.emails := by
  have : ∀ e ∈ db.emails,
      (fun e : Email => if e.id = k then { e with read := true } else e) e = id e := by
    intro e he
    have := id_lt_nextId db e he
    have hne : e.id ≠ k := by omega
    simp [hne]
  rw [List.map_congr_left this, List.map_id]

theorem status_loop_congr (m : IMAPMailbox) (db db2 : DB)
    (h1 : ∀ o, db.countEmails o (fun e => e.to_email = m.username)
      = db2.countEmails o (fun e => e.to_email = m.username))
    (h2 : ∀ o, db.countEmails o (fun e => e.to_email = m.username && e.read = false)
      = db2.countEmails o (fun e => e.to_email = m.username && e.read = false)) :
    ∀ (items : List StatusItem) (plan : Plan) (acc : StatusItems),
      IMAPMailbox.Status.loop m db items plan acc
        = IMAPMailbox.Status.loop m db2 items plan acc := by
  intro items
  induction items with
  | nil => intro plan acc; rfl
  | cons item rest ih =>
    intro plan acc
    simp only [IMAPMailbox.Status.loop, h1, h2, ih]

theorem countEmails_congr (db db2 : DB) (p : Email → Bool)
    (h : (db.emails.filter p).length = (db2.emails.filter p).length) (o : Option Error) :
    db.countEmails o p = db2.countEmails o p := by
  cases o with
  | none => exact h
  | some e => rfl

theorem enumFrom_succ_map {β : Type} (f : Nat → Row → β) :
    ∀ (l : List Row) (n : Nat),
      (l.enumFrom (n + 1)).map (fun p => f p.1 p.2)
        = (l.enumFrom n).map (fun p => f (p.1 + 1) p.2) := by
  intro l
  induction l with
  | nil => intro n; rfl
  | cons x xs ih => intro n; simp [List.enumFrom_cons, ih]

theorem rows_all_pairs (m : IMAPMailbox) (now : Nat) (uid : Bool) (items : List FetchItem)
    (rows : List Row) (hsafe : envelopeSafe m items rows) :
    (IMAPMailbox.ListMessages.rows m now uid none items (uint32 1) rows).1.map
        (fun x => (x.SeqNum, x.Uid))
      = (rows.enumFrom 1).map (fun p => (uint32 p.1, uint32 p.2.id)) := by
  have h := (rows_spec m now uid none items rows 1 hsafe).2.2
  simpa [skips] using h

theorem rows_all_pairs_of_lt (m : IMAPMailbox) (now : Nat) (uid : Bool)
    (items : List FetchItem) (rows : List Row) (hsafe : envelopeSafe m items rows)
    (hlen : rows.length < 2 ^ 32) :
    (IMAPMailbox.ListMessages.rows m now uid none items (uint32 1) rows).1.map
        (fun x => (x.SeqNum, x.Uid))
      = (rows.enumFrom 1).map (fun p => (p.1, uint32 p.2.id)) := by
  rw [rows_all_pairs m now uid items rows hsafe]
  exact List.map_congr_left (fun p hp => by rw [uint32_position rows hlen p hp])

theorem big_row_list_cons (n : Nat) (r : Row) (from_email subject body : Str) (i : Nat)
    (hi : i < n + 1) :
    ((IMAPMailbox.ListMessages.rows ⟨str "INBOX", str "b@y.com"⟩ 0 false none [] (uint32 1)
        (r :: (List.range n).map (fun k => ⟨k + 1, from_email, subject, body, 0⟩))).1.map
        (fun x => x.SeqNum))[i]? = some (uint32 (1 + i)) :=
  seqNum_at _ _ _ _ _ (fun h => absurd h (by simp)) i (by simpa using hi)

/-! ### Which attributes `ListMessages` fills -/

theorem fill_fields (m : IMAPMailbox) (now : Nat) (r : Row) :
    ∀ (items : List FetchItem) (msg out : Message),
      IMAPMailbox.ListMessages.fill m now r items msg = some out →
      (out.Envelope.isSome = true ↔ FetchEnvelope ∈ items ∨ msg.Envelope.isSome = true) ∧
      out.BodyStructure
        = (if FetchBodyStructure ∈ items then some ⟨str "text", str "plain"⟩
           else msg.BodyStructure) ∧
      out.Flags = (if FetchFlags ∈ items then some [] else msg.Flags) := by
  intro items
  induction items with
  | nil =>
    intro msg out h
    simp only [IMAPMailbox.ListMessages.fill, Option.some.injEq] at h
    subst h
    simp
  | cons item rest ih =>
    intro msg out h
    simp only [IMAPMailbox.ListMessages.fill] at h
    split at h
    · rename_i he
      subst he
      have n1 : FetchBodyStructure ≠ FetchEnvelope := by decide
      have n2 : FetchFlags ≠ FetchEnvelope := by decide
      split at h
      · have h2 := ih _ _ h
        simp only [Option.isSome_some, or_true, iff_true] at h2
        refine ⟨by simp [h2.1], ?_, ?_⟩
        · rw [h2.2.1]; simp [n1]
        · rw [h2.2.2]; simp [n2]
      · exact absurd h (by simp)
    · rename_i h1
      split at h
      · rename_i he
        subst he
        have n2 : FetchFlags ≠ FetchBodyStructure := by decide
        have h2 := ih _ _ h
        refine ⟨?_, ?_, ?_⟩
        · rw [h2.1]; simp [Ne.symm h1]
        · rw [h2.2.1]; simp
        · rw [h2.2.2]; simp [n2]
      · rename_i h3
        split at h
        · rename_i he
          subst he
          have h2 := ih _ _ h
          refine ⟨?_, ?_, ?_⟩
          · rw [h2.1]; simp [Ne.symm h1]
          · rw [h2.2.1]; simp [Ne.symm h3]
          · rw [h2.2.2]; simp
        · rename_i h4
          have h2 := ih _ _ h
          refine ⟨?_, ?_, ?_⟩
          · rw [h2.1]; simp [Ne.symm h1]
          · rw [h2.2.1]; simp [Ne.symm h3]
          · rw [h2.2.2]; simp [Ne.symm h4]

theorem rows_mem (m : IMAPMailbox) (now : Nat) (uid : Bool) (seqSet : Option SeqSet)
    (items : List FetchItem) :
    ∀ (rows : List Row) (c : Nat) (msg : Message),
      msg ∈ (IMAPMailbox.ListMessages.rows m now uid seqSet items c rows).1 →
      ∃ q r, r ∈ rows ∧
        IMAPMailbox.ListMessages.fill m now r items (newMessage q r) = some msg := by
  intro rows
  induction rows with
  | nil => intro c msg h; simp [IMAPMailbox.ListMessages.rows] at h
  | cons r rest ih =>
    intro c msg h
    simp only [IMAPMailbox.ListMessages.rows] at h
    split at h
    · obtain ⟨q, x, hx, hf⟩ := ih _ _ h
      exact ⟨q, x, List.mem_cons_of_mem _ hx, hf⟩
    · split at h
      · simp at h
      · rename_i out hout
        simp only [List.mem_cons] at h
        rcases h with rfl | h
        · exact ⟨c, r, by simp, hout⟩
        · obtain ⟨q, x, hx, hf⟩ := ih _ _ h
          exact ⟨q, x, List.mem_cons_of_mem _ hx, hf⟩

theorem list_messages_mem (m : IMAPMailbox) (db : DB) (plan : Plan) (now : Nat) (uid : Bool)
    (seqSet : Option SeqSet) (items : List FetchItem) (msg : Message)
    (h : msg ∈ (IMAPMailbox.ListMessages m db plan now uid seqSet items).1) :
    ∃ q r, IMAPMailbox.ListMessages.fill m now r items (newMessage q r) = some msg := by
  simp only [IMAPMailbox.ListMessages] at h
  split at h
  · simp at h
  · obtain ⟨q, r, _, hf⟩ := rows_mem m now uid seqSet items _ _ msg h
    exact ⟨q, r, hf⟩

/-! ### Facts about the session state and the fan-out under any plan -/

theorem store_prefix (from_ subject body : Str) :
    ∀ (rcpts : List Str) (db : DB) (plan : Plan),
      ∃ k, k ≤ rcpts.length ∧
        (SMTPSession.Data.store from_ subject body rcpts db plan).1.emails
          = db.emails ++ fanOutRows from_ subject body db.clock db.nextId (rcpts.take k) ∧
        ((SMTPSession.Data.store from_ subject body rcpts db plan).2 = Exit.nil ∨
          ∃ e, (SMTPSession.Data.store from_ subject body rcpts db plan).2 = Exit.error e) := by
  intro rcpts
  induction rcpts with
  | nil => intro db plan; exact ⟨0, by simp, by simp [SMTPSession.Data.store, fanOutRows], Or.inl rfl⟩
  | cons r rs ih =>
    intro db plan
    cases h0 : plan.pop.1 with
    | some e =>
      exact ⟨0, by simp, by simp [SMTPSession.Data.store, h0, DB.insertEmail, fanOutRows],
        Or.inr ⟨e, by simp [SMTPSession.Data.store, h0, DB.insertEmail]⟩⟩
    | none =>
      obtain ⟨db2, hi, he, _, hc, hn⟩ := insertEmail_none db from_ r subject body
      obtain ⟨k, hk, hem, hex⟩ := ih db2 plan.pop.2
      refine ⟨k + 1, by simpa using hk, ?_, ?_⟩
      · simp only [SMTPSession.Data.store, h0, hi]
        rw [hem, he, hc, hn]
        simp [fanOutRows]
      · simp only [SMTPSession.Data.store, h0, hi]
        exact hex

theorem foldl_Rcpt (later : List Str) :
    ∀ t : SMTPSession,
      (later.foldl (fun t r => (t.Rcpt r).1) t).to_ = t.to_ ++ later ∧
      (later.foldl (fun t r => (t.Rcpt r).1) t).from_ = t.from_ := by
  induction later with
  | nil => intro t; simp
  | cons r rs ih =>
    intro t
    have h := ih (t.Rcpt r).1
    simp only [List.foldl_cons]
    refine ⟨by rw [h.1]; simp [SMTPSession.Rcpt], by rw [h.2]; rfl⟩

theorem mem_fanOutRows_to (from_ subject body : Str) (date : Nat) (rcpts : List Str) (id : Nat)
    (x : Email) (h : x ∈ fanOutRows from_ subject body date id rcpts) : x.to_email ∈ rcpts := by
  have h2 := fanOutRows_to from_ subject body date rcpts id
  rw [← h2]
  exact List.mem_map_of_mem _ h

theorem Data_session (s : SMTPSession) (db : DB) (r : Except Error Str) (plan : Plan) :
    (SMTPSession.Data s db r plan).1 = s := by
  cases r with
  | error e => rfl
  | ok content =>
    simp only [SMTPSession.Data]
    split <;> rfl

theorem Data_exit (s : SMTPSession) (db : DB) (r : Except Error Str) (plan : Plan) :
    (SMTPSession.Data s db r plan).2.2 ≠ Exit.panic := by
  cases r with
  | error e => simp [SMTPSession.Data]
  | ok content =>
    obtain ⟨subject, body, hp⟩ := parse_isSome content
    obtain ⟨_, _, _, hex⟩ := store_prefix s.from_ subject body s.to_ db plan
    simp only [SMTPSession.Data, hp]
    rcases hex with h | ⟨e, h⟩ <;> rw [h] <;> simp

theorem Data_ok_emails (s : SMTPSession) (db : DB) (content : Str) (plan : Plan)
    (hok : ∀ i, i < s.to_.length → plan.getD i none = none) :
    ((SMTPSession.Data s db (.ok content) plan).2.1.emails.map Email.to_email
      = db.emails.map Email.to_email ++ s.to_) ∧
    (SMTPSession.Data s db (.ok content) plan).2.2 = Exit.nil := by
  obtain ⟨subject, body, hp⟩ := parse_isSome content
  have h := store_ok s.from_ subject body s.to_ db plan hok
  simp only [SMTPSession.Data, hp]
  refine ⟨?_, h.1⟩
  rw [h.2.1, List.map_append, fanOutRows_to]

/-! ### Facts about registration -/

theorem lowerByte_lowerByte (a : UInt8) : lowerByte (lowerByte a) = lowerByte a := by
  rcases a with ⟨v⟩
  revert v
  decide

theorem mem_trimLeft (runes : List Str) :
    ∀ (s : Str) (k : Nat) (b : UInt8), b ∈ trimLeft runes k s → b ∈ s := by
  intro s
  induction s with
  | nil => intro k b h; cases k <;> simp [trimLeft] at h
  | cons c cs ih =>
    intro k b h
    cases k with
    | succ k =>
      simp only [trimLeft] at h
      exact List.mem_cons_of_mem _ (ih k b h)
    | zero =>
      simp only [trimLeft] at h
      split at h
      · exact h
      · exact List.mem_cons_of_mem _ (ih _ b h)

theorem mem_TrimSpace (s : Str) (b : UInt8) (h : b ∈ TrimSpace s) : b ∈ s := by
  simp only [TrimSpace, List.mem_reverse] at h
  have h2 := mem_trimLeft _ _ _ _ h
  rw [List.mem_reverse] at h2
  exact mem_trimLeft _ _ _ _ h2

theorem ToLower_TrimSpace_ToLower (x : Str) :
    ToLower (TrimSpace (ToLower x)) = TrimSpace (ToLower x) := by
  have : ∀ b ∈ TrimSpace (ToLower x), lowerByte b = id b := by
    intro b hb
    have hb2 := mem_TrimSpace _ _ hb
    simp only [ToLower, List.mem_map] at hb2
    obtain ⟨a, _, rfl⟩ := hb2
    exact lowerByte_lowerByte a
  simp only [ToLower] at this ⊢
  rw [List.map_congr_left this, List.map_id]

theorem validDomain_iff (domain : Str) :
    ∀ allowed : List Str, EmailServer.validDomain domain allowed = true ↔ domain ∈ allowed := by
  intro allowed
  induction allowed with
  | nil => simp [EmailServer.validDomain]
  | cons a rest ih =>
    by_cases h : domain = a
    · simp [EmailServer.validDomain, h]
    · simp [EmailServer.validDomain, h, ih]

theorem insertUser_ok (db db2 : DB) (o : Option Error) (username email password : Str)
    (h : db.insertUser o username email password = .ok db2) :
    ∃ u ∈ db2.users, u.email = email ∧ u.username = username := by
  simp only [DB.insertUser] at h
  split at h
  · exact absurd h (by simp)
  · split at h
    · exact absurd h (by simp)
    · split at h
      · exact absurd h (by simp)
      · simp only [Except.ok.injEq] at h
        subst h
        exact ⟨_, List.mem_append_right _ (List.mem_singleton.mpr rfl), rfl, rfl⟩

theorem lowerByte_lt (a : UInt8) (h : a < 128) : lowerByte a < 128 := by
  rcases a with ⟨v⟩
  revert v
  decide

theorem ascii_TrimSpace_ToLower (x : Str) (h : ∀ b ∈ x, b < 128) :
    ∀ b ∈ TrimSpace (ToLower x), b < 128 := by
  intro b hb
  have hb2 := mem_TrimSpace _ _ hb
  simp only [ToLower, List.mem_map] at hb2
  obtain ⟨a, ha, rfl⟩ := hb2
  exact lowerByte_lt a (h a ha)

/-! ## Claims -/

/-- C1. Body extraction of `SMTPSession.Data`: when the stream, split on `\n`,
has a blank line (`""` or `"\r"`), the stream is a run of non-blank header
lines, each with its newline, then the first blank line, and then either a
newline followed by exactly the stored body, or nothing, in which case the
stored body is empty. -/
theorem data_body_follows_first_blank_line (content : Str)
    (h : ∃ l ∈ Split content 10, isBlank l = true) :
    ∃ subject body head blank,
      SMTPSession.Data.parse content = some (subject, body) ∧
      head = headerLines content ∧
      (∀ l ∈ head, isBlank l = false ∧ 10 ∉ l) ∧ isBlank blank = true ∧
      (content = unlines head ++ blank ++ 10 :: body ∨
        (content = unlines head ++ blank ∧ body = [])) := by
  obtain ⟨hdr, b, rest, e, hh, hb, ht⟩ := exists_first_blank _ h
  have hp := parse_of_first_blank content hdr b rest e hh hb
  have hc : content = unlines hdr ++ Join (b :: rest) 10 := by
    rw [← Join_append_cons, ← e, Join_Split]
  refine ⟨_, _, hdr, b, hp, ht, ?_, hb, ?_⟩
  · intro l hl
    refine ⟨hh l hl, not_mem_of_mem_Split 10 content l ?_⟩
    rw [e]; exact List.mem_append_left _ hl
  · cases rest with
    | nil => right; exact ⟨by simpa [Join] using hc, by simp⟩
    | cons r rs =>
      left
      rw [Join_cons_of_ne_nil _ _ _ (by simp)] at hc
      simpa using hc

/-- C1, at the stream of the scenario: the stored body is `"Hello\r\nWorld"`. -/
theorem data_body_follows_first_blank_line_witness :
    SMTPSession.Data.parse (str "Subject: Hi\r\n\r\nHello\r\nWorld")
        = some (str "Hi", str "Hello\r\nWorld") ∧
    ∃ subject body head blank,
      SMTPSession.Data.parse (str "Subject: Hi\r\n\r\nHello\r\nWorld") = some (subject, body) ∧
      head = headerLines (str "Subject: Hi\r\n\r\nHello\r\nWorld") ∧
      (∀ l ∈ head, isBlank l = false ∧ 10 ∉ l) ∧ isBlank blank = true ∧
      (str "Subject: Hi\r\n\r\nHello\r\nWorld" = unlines head ++ blank ++ 10 :: body ∨
        (str "Subject: Hi\r\n\r\nHello\r\nWorld" = unlines head ++ blank ∧ body = [])) :=
  ⟨by decide,
   data_body_follows_first_blank_line (str "Subject: Hi\r\n\r\nHello\r\nWorld")
     ⟨str "\r", by decide, by decide⟩⟩

/-- C2. Subject extraction of `SMTPSession.Data`: when exactly one line of the
header section (the lines before the first blank line) begins with `Subject:`
in some letter case, the stored subject is the rest of that line after these 8
bytes, with the leading and trailing white space trimmed. -/
theorem data_subject_of_single_subject_line (content : Str) (pre post : List Str)
    (p rest : Str)
    (hhdr : headerLines content = pre ++ (p ++ rest) :: post)
    (hp : ToLower p = str "subject:")
    (hothers : ∀ l ∈ pre ++ post, HasPrefix (ToLower l) (str "subject:") = false) :
    ∃ body, SMTPSession.Data.parse content = some (TrimSpace rest, body) := by
  obtain ⟨body, hb⟩ := parse_subject content
  refine ⟨body, ?_⟩
  rw [hb, hhdr, foldSubject_append, foldSubject_subject_line p rest _ hp,
    foldSubject_of_no_subject post _ (fun l hl => hothers l (by simp [hl]))]

/-- C2, at the stream of the scenario: the stored subject is `"Hi"`, the rest
`" Hi\r"` of the line `"Subject: Hi\r"` trimmed. -/
theorem data_subject_of_single_subject_line_witness :
    TrimSpace (str " Hi\r") = str "Hi" ∧
    ∃ body, SMTPSession.Data.parse (str "Subject: Hi\r\n\r\nHello\r\nWorld")
      = some (TrimSpace (str " Hi\r"), body) :=
  ⟨by decide,
   data_subject_of_single_subject_line (str "Subject: Hi\r\n\r\nHello\r\nWorld") [] []
     (str "Subject:") (str " Hi\r") (by decide) (by decide) (by decide)⟩

/-- C3. Fan-out of `SMTPSession.Data`: when the stream is read and every insert
goes through, `Data` returns `nil` and the store holds its earlier rows,
unchanged, followed by one new row per recipient in recipient order: the rows
`(from, to[i], subject, body)` with the parsed subject and body, which differ
only in recipient (and id). -/
theorem data_fan_out (s : SMTPSession) (db : DB) (content : Str) (plan : Plan)
    (hok : ∀ i, i < s.to_.length → plan.getD i none = none) :
    ∃ subject body rows,
      SMTPSession.Data.parse content = some (subject, body) ∧
      (SMTPSession.Data s db (.ok content) plan).2.2 = Exit.nil ∧
      (SMTPSession.Data s db (.ok content) plan).2.1.emails = db.emails ++ rows ∧
      rows = fanOutRows s.from_ subject body db.clock db.nextId s.to_ ∧
      rows.length = s.to_.length ∧
      rows.map Email.to_email = s.to_ ∧
      (∀ x ∈ rows, x.from_email = s.from_ ∧ x.subject = subject ∧ x.body = body) := by
  obtain ⟨subject, body, hp⟩ := parse_isSome content
  have h := store_ok s.from_ subject body s.to_ db plan hok
  refine ⟨subject, body, _, hp, ?_, ?_, rfl, fanOutRows_length _ _ _ _ _ _,
    fanOutRows_to _ _ _ _ _ _, ?_⟩
  · simp only [SMTPSession.Data, hp]; exact h.1
  · simp only [SMTPSession.Data, hp]; exact h.2.1
  · intro x hx
    have := fanOutRows_same _ _ _ _ _ _ x hx
    exact ⟨this.1, this.2.1, this.2.2.1⟩

/-- C3, for the scenario: sender `a@x.com`, recipients `b@y.com` and `c@z.com`,
an empty store, no failing insert. -/
theorem data_fan_out_witness :
    (SMTPSession.Data ⟨str "a@x.com", [str "b@y.com", str "c@z.com"]⟩ ⟨[], [], 0, 7⟩
        (.ok (str "Subject: Hi\r\n\r\nHello\r\nWorld")) []).2.1.emails
      = [⟨1, str "a@x.com", str "b@y.com", str "Hi", str "Hello\r\nWorld", 7, false⟩,
         ⟨2, str "a@x.com", str "c@z.com", str "Hi", str "Hello\r\nWorld", 7, false⟩] ∧
    ∃ subject body rows,
      SMTPSession.Data.parse (str "Subject: Hi\r\n\r\nHello\r\nWorld") = some (subject, body) ∧
      (SMTPSession.Data ⟨str "a@x.com", [str "b@y.com", str "c@z.com"]⟩ ⟨[], [], 0, 7⟩
        (.ok (str "Subject: Hi\r\n\r\nHello\r\nWorld")) []).2.2 = Exit.nil ∧
      (SMTPSession.Data ⟨str "a@x.com", [str "b@y.com", str "c@z.com"]⟩ ⟨[], [], 0, 7⟩
        (.ok (str "Subject: Hi\r\n\r\nHello\r\nWorld")) []).2.1.emails
          = (⟨[], [], 0, 7⟩ : DB).emails ++ rows ∧
      rows = fanOutRows (SMTPSession.mk (str "a@x.com") [str "b@y.com", str "c@z.com"]).from_
        subject body (⟨[], [], 0, 7⟩ : DB).clock (⟨[], [], 0, 7⟩ : DB).nextId
        (SMTPSession.mk (str "a@x.com") [str "b@y.com", str "c@z.com"]).to_ ∧
      rows.length = (SMTPSession.mk (str "a@x.com") [str "b@y.com", str "c@z.com"]).to_.length ∧
      rows.map Email.to_email
        = (SMTPSession.mk (str "a@x.com") [str "b@y.com", str "c@z.com"]).to_ ∧
      (∀ x ∈ rows,
        x.from_email = (SMTPSession.mk (str "a@x.com") [str "b@y.com", str "c@z.com"]).from_ ∧
        x.subject = subject ∧ x.body = body) :=
  ⟨by decide,
   data_fan_out ⟨str "a@x.com", [str "b@y.com", str "c@z.com"]⟩ ⟨[], [], 0, 7⟩
     (str "Subject: Hi\r\n\r\nHello\r\nWorld") [] (by decide)⟩

/-- C4. Partial fan-out failure of `SMTPSession.Data`: when the insert for
recipient `to[k]` is the first to fail, with error `e`, `Data` returns `e`; the
store holds its earlier rows followed by the `k` rows written for
`to[0..k-1]`, and no row for `to[k]` or a later recipient. -/
theorem data_partial_fan_out (s : SMTPSession) (db : DB) (content : Str) (plan : Plan)
    (k : Nat) (e : Error) (hk : k < s.to_.length)
    (hbefore : ∀ i, i < k → plan.getD i none = none)
    (hfail : plan.getD k none = some e) :
    ∃ subject body,
      SMTPSession.Data.parse content = some (subject, body) ∧
      (SMTPSession.Data s db (.ok content) plan).2.2 = Exit.error e ∧
      (SMTPSession.Data s db (.ok content) plan).2.1.emails
        = db.emails ++ fanOutRows s.from_ subject body db.clock db.nextId (s.to_.take k) ∧
      ((SMTPSession.Data s db (.ok content) plan).2.1.emails.length = db.emails.length + k) := by
  obtain ⟨subject, body, hp⟩ := parse_isSome content
  have h := store_fail s.from_ subject body s.to_ db plan k e hk hbefore hfail
  refine ⟨subject, body, hp, ?_, ?_, ?_⟩
  · simp only [SMTPSession.Data, hp]; exact h.1
  · simp only [SMTPSession.Data, hp]; exact h.2.1
  · simp only [SMTPSession.Data, hp]
    rw [h.2.1, List.length_append, fanOutRows_length, List.length_take]
    have : min k s.to_.length = k := Nat.min_eq_left (Nat.le_of_lt hk)
    rw [this]

/-- C4, for three recipients when the second insert fails with `disk I/O error`:
the row of the first recipient stays, nothing is written for the other two. -/
theorem data_partial_fan_out_witness :
    (SMTPSession.Data ⟨str "a@x.com", [str "b@y.com", str "c@z.com", str "d@w.com"]⟩
        ⟨[], [], 0, 7⟩ (.ok (str "Subject: Hi\r\n\r\nHello")) [none, some "disk I/O error"]).2
      = (⟨[], [⟨1, str "a@x.com", str "b@y.com", str "Hi", str "Hello", 7, false⟩], 1, 7⟩,
         Exit.error "disk I/O error") ∧
    ∃ subject body,
      SMTPSession.Data.parse (str "Subject: Hi\r\n\r\nHello") = some (subject, body) ∧
      (SMTPSession.Data ⟨str "a@x.com", [str "b@y.com", str "c@z.com", str "d@w.com"]⟩
        ⟨[], [], 0, 7⟩ (.ok (str "Subject: Hi\r\n\r\nHello"))
        [none, some "disk I/O error"]).2.2 = Exit.error "disk I/O error" ∧
      (SMTPSession.Data ⟨str "a@x.com", [str "b@y.com", str "c@z.com", str "d@w.com"]⟩
        ⟨[], [], 0, 7⟩ (.ok (str "Subject: Hi\r\n\r\nHello"))
        [none, some "disk I/O error"]).2.1.emails
        = (⟨[], [], 0, 7⟩ : DB).emails ++
          fanOutRows
            (SMTPSession.mk (str "a@x.com") [str "b@y.com", str "c@z.com", str "d@w.com"]).from_
            subject body (⟨[], [], 0, 7⟩ : DB).clock (⟨[], [], 0, 7⟩ : DB).nextId
            ((SMTPSession.mk (str "a@x.com")
              [str "b@y.com", str "c@z.com", str "d@w.com"]).to_.take 1) ∧
      ((SMTPSession.Data ⟨str "a@x.com", [str "b@y.com", str "c@z.com", str "d@w.com"]⟩
        ⟨[], [], 0, 7⟩ (.ok (str "Subject: Hi\r\n\r\nHello"))
        [none, some "disk I/O error"]).2.1.emails.length
        = (⟨[], [], 0, 7⟩ : DB).emails.length + 1) :=
  ⟨by decide,
   data_partial_fan_out ⟨str "a@x.com", [str "b@y.com", str "c@z.com", str "d@w.com"]⟩
     ⟨[], [], 0, 7⟩ (str "Subject: Hi\r\n\r\nHello") [none, some "disk I/O error"] 1
     "disk I/O error" (by decide) (by decide) (by decide)⟩

/-- C5. Credential verification: on a store whose account addresses are unique
(the `UNIQUE` column `email`) and whose account query goes through,
`IMAPBackend.Login` and `SMTPSession.AuthPlain` each succeed exactly when the
store holds an account with the presented address whose stored hash accepts the
presented secret; so both accept the same pairs, and the user a successful
`Login` returns has the presented identity as `Username`. -/
theorem credential_verification (compare : Str → Str → Option Error) (db : DB) (plan : Plan)
    (username password : Str)
    (hq : plan.getD 0 none = none)
    (huniq : db.users.Pairwise (fun a b => a.email ≠ b.email)) :
    ((∃ user, IMAPBackend.Login compare db plan username password = .ok user) ↔
      ∃ a ∈ db.users, a.email = username ∧ compare a.password password = none) ∧
    (SMTPSession.AuthPlain compare db plan username password = Exit.nil ↔
      ∃ a ∈ db.users, a.email = username ∧ compare a.password password = none) ∧
    ((∃ user, IMAPBackend.Login compare db plan username password = .ok user) ↔
      SMTPSession.AuthPlain compare db plan username password = Exit.nil) ∧
    (∀ user, IMAPBackend.Login compare db plan username password = .ok user →
      user.Username = username) := by
  have h0 : plan.pop.1 = none := by rw [Plan.pop_fst]; exact hq
  cases hf : db.users.find? (fun u => u.email = username) with
  | none =>
    have hno : ¬ ∃ a ∈ db.users, a.email = username ∧ compare a.password password = none := by
      rintro ⟨a, ha, he, _⟩
      rw [find_user_of_unique db.users username huniq a ha he] at hf
      exact absurd hf (by simp)
    simp only [IMAPBackend.Login, SMTPSession.AuthPlain, DB.userByEmail, h0, hf]
    simp [hno]
  | some u =>
    obtain ⟨hu, hue⟩ := find_user_some db.users username u hf
    have hiff : (∃ a ∈ db.users, a.email = username ∧ compare a.password password = none) ↔
        compare u.password password = none := by
      constructor
      · rintro ⟨a, ha, he, hc⟩
        have := find_user_of_unique db.users username huniq a ha he
        rw [hf] at this
        cases this
        exact hc
      · intro hc; exact ⟨u, hu, hue, hc⟩
    simp only [IMAPBackend.Login, SMTPSession.AuthPlain, DB.userByEmail, h0, hf, hiff]
    cases hc : compare u.password password with
    | none => simp [IMAPUser.Username]
    | some e => simp

/-- C5, on a store with the one account `b@y.com` whose hash accepts the secret
`pw` (the check modelled by equality): `Login` returns that user. -/
theorem credential_verification_witness :
    IMAPBackend.Login (fun h p => if h = p then none else some "mismatch")
        ⟨[⟨1, str "b", str "b@y.com", str "pw", 0⟩], [], 0, 0⟩ [] (str "b@y.com") (str "pw")
      = .ok ⟨str "b@y.com", 1⟩ ∧
    ((∃ user, IMAPBackend.Login (fun h p => if h = p then none else some "mismatch")
        ⟨[⟨1, str "b", str "b@y.com", str "pw", 0⟩], [], 0, 0⟩ [] (str "b@y.com") (str "pw")
          = .ok user) ↔
      SMTPSession.AuthPlain (fun h p => if h = p then none else some "mismatch")
        ⟨[⟨1, str "b", str "b@y.com", str "pw", 0⟩], [], 0, 0⟩ [] (str "b@y.com") (str "pw")
          = Exit.nil) :=
  ⟨rfl,
   (credential_verification (fun h p => if h = p then none else some "mismatch")
     ⟨[⟨1, str "b", str "b@y.com", str "pw", 0⟩], [], 0, 0⟩ [] (str "b@y.com") (str "pw")
     (by decide) (by decide)).2.2.1⟩

/-- C6. Opaque authentication failure: for an identity the store does not know
and for a known identity with a secret its stored hash rejects, `Login` returns
the same error, and so does `AuthPlain`: the error `authentication failed`,
whatever the driver does. -/
theorem authentication_failure_opaque (compare : Str → Str → Option Error) (db : DB)
    (plan plan2 : Plan) (unknown secret known wrong : Str)
    (hunknown : ∀ a ∈ db.users, a.email ≠ unknown)
    (hknown : ∃ a ∈ db.users, a.email = known)
    (hwrong : ∀ a ∈ db.users, a.email = known → compare a.password wrong ≠ none) :
    IMAPBackend.Login compare db plan unknown secret
      = IMAPBackend.Login compare db plan2 known wrong ∧
    IMAPBackend.Login compare db plan unknown secret = .error "authentication failed" ∧
    SMTPSession.AuthPlain compare db plan unknown secret
      = SMTPSession.AuthPlain compare db plan2 known wrong ∧
    SMTPSession.AuthPlain compare db plan unknown secret
      = Exit.error "authentication failed" := by
  obtain ⟨_, _, _⟩ := hknown
  have h1 : IMAPBackend.Login compare db plan unknown secret = .error "authentication failed" := by
    simp only [IMAPBackend.Login, DB.userByEmail]
    cases plan.pop.1 with
    | some e => rfl
    | none => simp only [find_user_none db.users unknown hunknown]
  have h2 : IMAPBackend.Login compare db plan2 known wrong = .error "authentication failed" := by
    simp only [IMAPBackend.Login, DB.userByEmail]
    cases plan2.pop.1 with
    | some e => rfl
    | none =>
      cases hf : db.users.find? (fun u => u.email = known) with
      | none => rfl
      | some u =>
        obtain ⟨hu, hue⟩ := find_user_some db.users known u hf
        simp [hwrong u hu hue]
  have h3 : SMTPSession.AuthPlain compare db plan unknown secret
      = Exit.error "authentication failed" := by
    simp only [SMTPSession.AuthPlain, DB.userByEmail]
    cases plan.pop.1 with
    | some e => rfl
    | none => simp only [find_user_none db.users unknown hunknown]
  have h4 : SMTPSession.AuthPlain compare db plan2 known wrong
      = Exit.error "authentication failed" := by
    simp only [SMTPSession.AuthPlain, DB.userByEmail]
    cases plan2.pop.1 with
    | some e => rfl
    | none =>
      cases hf : db.users.find? (fun u => u.email = known) with
      | none => rfl
      | some u =>
        obtain ⟨hu, hue⟩ := find_user_some db.users known u hf
        simp [hwrong u hu hue]
  exact ⟨h1.trans h2.symm, h1, h3.trans h4.symm, h3⟩

/-- C6, on a store with the one account `b@y.com`: the unknown `z@y.com` and the
known `b@y.com` with the wrong secret `no` fail alike. -/
theorem authentication_failure_opaque_witness :
    IMAPBackend.Login (fun h p => if h = p then none else some "mismatch")
        ⟨[⟨1, str "b", str "b@y.com", str "pw", 0⟩], [], 0, 0⟩ [] (str "z@y.com") (str "pw")
      = IMAPBackend.Login (fun h p => if h = p then none else some "mismatch")
        ⟨[⟨1, str "b", str "b@y.com", str "pw", 0⟩], [], 0, 0⟩ [] (str "b@y.com") (str "no") ∧
    SMTPSession.AuthPlain (fun h p => if h = p then none else some "mismatch")
        ⟨[⟨1, str "b", str "b@y.com", str "pw", 0⟩], [], 0, 0⟩ [] (str "z@y.com") (str "pw")
      = SMTPSession.AuthPlain (fun h p => if h = p then none else some "mismatch")
        ⟨[⟨1, str "b", str "b@y.com", str "pw", 0⟩], [], 0, 0⟩ [] (str "b@y.com") (str "no") :=
  have h := authentication_failure_opaque (fun h p => if h = p then none else some "mismatch")
    ⟨[⟨1, str "b", str "b@y.com", str "pw", 0⟩], [], 0, 0⟩ [] [] (str "z@y.com") (str "pw")
    (str "b@y.com") (str "no") (by decide) (by decide) (by decide)
  ⟨h.1, h.2.2.1⟩

/-- C7, as amended. `ListMessages` in sequence-number mode, on rows whose
envelope can be built: the call ends with `nil`; the messages sent are, in list
order, those assembled from the rows whose 1-based position in the full list,
as the `uint32` counter (position mod 2^32), is a member of the selector; each
has that counter value as `SeqNum` and `uint32(id)` as `Uid`; a nil selector
emits every row; on fewer than 2^32 rows the counter is the position itself. -/
theorem list_messages_by_sequence_number (m : IMAPMailbox) (now : Nat) (S : SeqSet)
    (items : List FetchItem) (rows : List Row) (hsafe : envelopeSafe m items rows) :
    (IMAPMailbox.ListMessages.rows m now false (some S) items (uint32 1) rows).2 = Exit.nil ∧
    (IMAPMailbox.ListMessages.rows m now false (some S) items (uint32 1) rows).1.map some
      = ((rows.enumFrom 1).filter (fun p => S.Contains (uint32 p.1))).map
          (fun p => IMAPMailbox.ListMessages.fill m now p.2 items
            (newMessage (uint32 p.1) p.2)) ∧
    (IMAPMailbox.ListMessages.rows m now false (some S) items (uint32 1) rows).1.map
        (fun x => (x.SeqNum, x.Uid))
      = ((rows.enumFrom 1).filter (fun p => S.Contains (uint32 p.1))).map
          (fun p => (uint32 p.1, uint32 p.2.id)) ∧
    (IMAPMailbox.ListMessages.rows m now false none items (uint32 1) rows).1.map
        (fun x => (x.SeqNum, x.Uid))
      = (rows.enumFrom 1).map (fun p => (uint32 p.1, uint32 p.2.id)) ∧
    (rows.length < 2 ^ 32 →
      (IMAPMailbox.ListMessages.rows m now false (some S) items (uint32 1) rows).1.map
          (fun x => (x.SeqNum, x.Uid))
        = ((rows.enumFrom 1).filter (fun p => S.Contains p.1)).map
            (fun p => (p.1, uint32 p.2.id))) := by
  have h := rows_spec m now false (some S) items rows 1 hsafe
  have hn := rows_spec m now false none items rows 1 hsafe
  have e1 : (fun p : Nat × Row => !skips (some S) (uint32 p.1))
      = (fun p => S.Contains (uint32 p.1)) := by
    funext p; simp [skips]
  rw [e1] at h
  refine ⟨h.1, h.2.1, h.2.2, ?_, ?_⟩
  · have := hn.2.2
    simpa [skips] using this
  · intro hlen
    have hpos := uint32_position rows hlen
    rw [h.2.2]
    have e2 : (rows.enumFrom 1).filter (fun p => S.Contains (uint32 p.1))
        = (rows.enumFrom 1).filter (fun p => S.Contains p.1) :=
      List.filter_congr (fun p hp => by rw [hpos p hp])
    rw [e2]
    exact List.map_congr_left (fun p hp => by rw [hpos p (List.mem_of_mem_filter hp)])

/-- C7, for the scenario: the selector `{2}` on three rows, the envelope
requested, emits the second row alone, with `SeqNum` 2; on no rows nothing is
emitted. -/
theorem list_messages_by_sequence_number_witness :
    (IMAPMailbox.ListMessages.rows ⟨str "INBOX", str "b@y.com"⟩ 0 false
        (some ⟨fun q => q == 2⟩) [FetchEnvelope] (uint32 1)
        [⟨30, str "a@x.com", str "s3", str "b3", 9⟩, ⟨20, str "a@x.com", str "s2", str "b2", 8⟩,
         ⟨10, str "a@x.com", str "s1", str "b1", 7⟩]).1.map (fun x => (x.SeqNum, x.Uid))
      = [(2, 20)] ∧
    (IMAPMailbox.ListMessages.rows ⟨str "INBOX", str "b@y.com"⟩ 0 false
        (some ⟨fun q => q == 2⟩) [FetchEnvelope] (uint32 1) []).1 = [] ∧
    (IMAPMailbox.ListMessages.rows ⟨str "INBOX", str "b@y.com"⟩ 0 false
        (some ⟨fun q => q == 2⟩) [FetchEnvelope] (uint32 1)
        [⟨30, str "a@x.com", str "s3", str "b3", 9⟩, ⟨20, str "a@x.com", str "s2", str "b2", 8⟩,
         ⟨10, str "a@x.com", str "s1", str "b1", 7⟩]).2 = Exit.nil :=
  ⟨by decide, by decide,
   (list_messages_by_sequence_number ⟨str "INBOX", str "b@y.com"⟩ 0 ⟨fun q => q == 2⟩
     [FetchEnvelope]
     [⟨30, str "a@x.com", str "s3", str "b3", 9⟩, ⟨20, str "a@x.com", str "s2", str "b2", 8⟩,
      ⟨10, str "a@x.com", str "s1", str "b1", 7⟩] (by decide)).1⟩

/-- C7 as stated fails. A row with id 2^32 is emitted with `Uid` 0, not with
its persistent id; of 2^32 rows the last, at position 2^32, is emitted with
`SeqNum` 0; and a selected row whose sender is the null sender `""`, which has
no `@`, is not emitted when the envelope is requested: the call panics. -/
theorem list_messages_by_sequence_number_fails :
    (IMAPMailbox.ListMessages.rows ⟨str "INBOX", str "b@y.com"⟩ 0 false
        (some ⟨fun q => q == 1⟩) [] (uint32 1)
        [⟨4294967296, str "a@x.com", str "s", str "b", 9⟩]).1.map (fun x => (x.SeqNum, x.Uid))
      = [(1, 0)] ∧
    ((IMAPMailbox.ListMessages.rows ⟨str "INBOX", str "b@y.com"⟩ 0 false none [] (uint32 1)
        ((List.range 4294967296).map (fun k => ⟨k + 1, str "a@x.com", str "s", str "b", 0⟩))).1.map
        (fun x => x.SeqNum))[4294967295]? = some 0 ∧
    IMAPMailbox.ListMessages.rows ⟨str "INBOX", str "b@y.com"⟩ 0 false
        (some ⟨fun q => q == 1⟩) [FetchEnvelope] (uint32 1)
        [⟨1, str "", str "s", str "b", 9⟩]
      = ([], Exit.panic) :=
  ⟨by decide,
   (big_row_list 4294967296 (str "a@x.com") (str "s") (str "b") 4294967295 (by decide)).trans
     (by decide),
   by decide⟩

/-- C8, at a failing input: with `uid = true` and the selector `{3}` on the rows
with ids 3, 2, 1 (newest first), the code emits the third row, whose id is 1,
and not the row whose id is 3: the selector is matched against the sequence
counter, the argument `uid` is not read. -/
theorem list_messages_uid_mode_selects_by_position :
    (IMAPMailbox.ListMessages.rows ⟨str "INBOX", str "b@y.com"⟩ 0 true
        (some ⟨fun q => q == 3⟩) [] (uint32 1)
        [⟨3, str "a@x.com", str "s3", str "b3", 9⟩, ⟨2, str "a@x.com", str "s2", str "b2", 8⟩,
         ⟨1, str "a@x.com", str "s1", str "b1", 7⟩]).1.map (fun x => (x.SeqNum, x.Uid))
      = [(3, 1)] := by
  decide

/-- C9, at a failing input: in a mailbox that holds the message with id 1000,
`Status` reports the UID-next value 1000 while `ListMessages` emits the `Uid`
1000: the value is the constant `uint32(1000)`, not a bound on the ids. -/
theorem status_uid_next_not_above_uid :
    (IMAPMailbox.Status ⟨str "INBOX", str "b@y.com"⟩
        ⟨[], [⟨1000, str "a@x.com", str "b@y.com", str "s", str "b", 9, false⟩], 1000, 9⟩ []
        [StatusUidNext]).1.Items StatusUidNext = some 1000 ∧
    (IMAPMailbox.ListMessages ⟨str "INBOX", str "b@y.com"⟩
        ⟨[], [⟨1000, str "a@x.com", str "b@y.com", str "s", str "b", 9, false⟩], 1000, 9⟩ []
        0 false none []).1.map (fun x => x.Uid) = [1000] := by
  constructor <;> decide

/-- C10, as amended. When the queries go through and every envelope can be
built, the `Messages` value of `Status` is the `uint32` conversion (the value
mod 2^32) of the number of messages `ListMessages` emits with a nil selector on
the same store; the two are equal when fewer than 2^32 messages are emitted,
and both are 0 for an empty mailbox. -/
theorem status_messages_agrees_with_list (m : IMAPMailbox) (db : DB) (planS planL : Plan)
    (now : Nat) (uid : Bool) (items : List StatusItem) (fetch : List FetchItem)
    (hS : ∀ i, planS.getD i none = none) (hL : planL.getD 0 none = none)
    (hreq : StatusMessages ∈ items)
    (hsafe : envelopeSafe m fetch ((db.inbox m.username).map Email.toRow)) :
    (IMAPMailbox.Status m db planS items).1.Items StatusMessages
      = some (uint32 (IMAPMailbox.ListMessages m db planL now uid none fetch).1.length) ∧
    ((IMAPMailbox.ListMessages m db planL now uid none fetch).1.length < 2 ^ 32 →
      (IMAPMailbox.Status m db planS items).1.Items StatusMessages
        = some (IMAPMailbox.ListMessages m db planL now uid none fetch).1.length) ∧
    (db.inbox m.username = [] →
      (IMAPMailbox.Status m db planS items).1.Items StatusMessages = some 0 ∧
      (IMAPMailbox.ListMessages m db planL now uid none fetch).1 = []) := by
  have hl := list_messages_all_length m db planL now uid fetch hL hsafe
  have hs : (IMAPMailbox.Status m db planS items).1.Items StatusMessages
      = some (uint32 (IMAPMailbox.ListMessages m db planL now uid none fetch).1.length) := by
    simp only [IMAPMailbox.Status]
    rw [status_loop_messages m db items planS _ hS, hl]
    simp [hreq]
  refine ⟨hs, fun hlt => by rw [hs, uint32_of_lt _ hlt], fun hempty => ?_⟩
  have h0 : (IMAPMailbox.ListMessages m db planL now uid none fetch).1.length = 0 := by
    rw [hl, ← inbox_length, hempty]; rfl
  refine ⟨by rw [hs, h0]; rfl, List.length_eq_zero.mp h0⟩

/-- C10, on a store with two messages for `b@y.com` and one for another
recipient: `Status` reports 2 and `ListMessages` emits 2 messages. -/
theorem status_messages_agrees_with_list_witness :
    (IMAPMailbox.Status ⟨str "INBOX", str "b@y.com"⟩
        ⟨[], [⟨1, str "a@x.com", str "b@y.com", str "s1", str "b1", 7, false⟩,
              ⟨2, str "a@x.com", str "c@z.com", str "s1", str "b1", 7, false⟩,
              ⟨3, str "c@z.com", str "b@y.com", str "s2", str "b2", 8, true⟩], 3, 9⟩ []
        [StatusMessages]).1.Items StatusMessages = some 2 ∧
    (IMAPMailbox.Status ⟨str "INBOX", str "b@y.com"⟩
        ⟨[], [⟨1, str "a@x.com", str "b@y.com", str "s1", str "b1", 7, false⟩,
              ⟨2, str "a@x.com", str "c@z.com", str "s1", str "b1", 7, false⟩,
              ⟨3, str "c@z.com", str "b@y.com", str "s2", str "b2", 8, true⟩], 3, 9⟩ []
        [StatusMessages]).1.Items StatusMessages
      = some (uint32 (IMAPMailbox.ListMessages ⟨str "INBOX", str "b@y.com"⟩
        ⟨[], [⟨1, str "a@x.com", str "b@y.com", str "s1", str "b1", 7, false⟩,
              ⟨2, str "a@x.com", str "c@z.com", str "s1", str "b1", 7, false⟩,
              ⟨3, str "c@z.com", str "b@y.com", str "s2", str "b2", 8, true⟩], 3, 9⟩ []
        0 false none [FetchEnvelope]).1.length) :=
  ⟨by decide,
   (status_messages_agrees_with_list ⟨str "INBOX", str "b@y.com"⟩
     ⟨[], [⟨1, str "a@x.com", str "b@y.com", str "s1", str "b1", 7, false⟩,
           ⟨2, str "a@x.com", str "c@z.com", str "s1", str "b1", 7, false⟩,
           ⟨3, str "c@z.com", str "b@y.com", str "s2", str "b2", 8, true⟩], 3, 9⟩ [] []
     0 false [StatusMessages] [FetchEnvelope] (by simp) (by decide) (by decide)
     (by decide)).1⟩

/-- C10 as stated fails. In a mailbox of 2^32 messages `Status` reports the
`Messages` value 0 while `ListMessages` emits 2^32 messages; and in a mailbox
with one message from the null sender `""` `Status` reports 1 while
`ListMessages`, asked for the envelope, panics before it emits a message. -/
theorem status_messages_agrees_with_list_fails :
    ((IMAPMailbox.Status ⟨str "INBOX", str "b@y.com"⟩
        ⟨[], (List.range 4294967296).map
          (fun i => ⟨i + 1, str "a@x.com", str "b@y.com", str "s", str "b", 0, false⟩),
          4294967296, 0⟩ []
        [StatusMessages]).1.Items StatusMessages = some 0 ∧
     (IMAPMailbox.ListMessages ⟨str "INBOX", str "b@y.com"⟩
        ⟨[], (List.range 4294967296).map
          (fun i => ⟨i + 1, str "a@x.com", str "b@y.com", str "s", str "b", 0, false⟩),
          4294967296, 0⟩ []
        0 false none []).1.length = 4294967296) ∧
    ((IMAPMailbox.Status ⟨str "INBOX", str "b@y.com"⟩
        ⟨[], [⟨1, str "", str "b@y.com", str "s", str "b", 7, false⟩], 1, 9⟩ []
        [StatusMessages]).1.Items StatusMessages = some 1 ∧
     IMAPMailbox.ListMessages ⟨str "INBOX", str "b@y.com"⟩
        ⟨[], [⟨1, str "", str "b@y.com", str "s", str "b", 7, false⟩], 1, 9⟩ []
        0 false none [FetchEnvelope] = ([], Exit.panic)) :=
  have h := big_mailbox 4294967296 (str "a@x.com") (str "b@y.com") (str "s") (str "b")
  ⟨⟨h.1.trans (by decide), h.2⟩, by decide, by decide⟩

/-- C11, as amended. When the queries of `Status` go through, its `Unseen` value
is the `uint32` conversion (the value mod 2^32) of the number of rows whose
recipient is the owner's address and whose read flag is false, and is that
number itself below 2^32; a further row for another recipient, or one already
read, does not change it. -/
theorem status_unseen_counts_unread (m : IMAPMailbox) (db : DB) (plan : Plan)
    (items : List StatusItem)
    (hS : ∀ i, plan.getD i none = none) (hreq : StatusUnseen ∈ items) :
    (IMAPMailbox.Status m db plan items).1.Items StatusUnseen
      = some (uint32 (unseenCount db m.username)) ∧
    (unseenCount db m.username < 2 ^ 32 →
      (IMAPMailbox.Status m db plan items).1.Items StatusUnseen
        = some (unseenCount db m.username)) ∧
    (∀ e : Email, e.to_email ≠ m.username ∨ e.read = true →
      (IMAPMailbox.Status m { db with emails := e :: db.emails } plan items).1.Items StatusUnseen
        = (IMAPMailbox.Status m db plan items).1.Items StatusUnseen) := by
  have hs : ∀ d : DB, (IMAPMailbox.Status m d plan items).1.Items StatusUnseen
      = some (uint32 (unseenCount d m.username)) := by
    intro d
    simp only [IMAPMailbox.Status]
    rw [status_loop_unseen m d items plan _ hS]
    simp [hreq]
  refine ⟨hs db, fun hlt => by rw [hs db, uint32_of_lt _ hlt], fun e he => ?_⟩
  rw [hs, hs, unseenCount_cons]
  rcases he with he | he
  · simp [he]
  · simp [he]

/-- C11, on a store with one unread and one read message for `b@y.com` and one
unread message for another recipient: `Unseen` is 1. -/
theorem status_unseen_counts_unread_witness :
    (IMAPMailbox.Status ⟨str "INBOX", str "b@y.com"⟩
        ⟨[], [⟨1, str "a@x.com", str "b@y.com", str "s1", str "b1", 7, false⟩,
              ⟨2, str "a@x.com", str "c@z.com", str "s1", str "b1", 7, false⟩,
              ⟨3, str "c@z.com", str "b@y.com", str "s2", str "b2", 8, true⟩], 3, 9⟩ []
        [StatusUnseen]).1.Items StatusUnseen = some 1 ∧
    (IMAPMailbox.Status ⟨str "INBOX", str "b@y.com"⟩
        ⟨[], [⟨1, str "a@x.com", str "b@y.com", str "s1", str "b1", 7, false⟩,
              ⟨2, str "a@x.com", str "c@z.com", str "s1", str "b1", 7, false⟩,
              ⟨3, str "c@z.com", str "b@y.com", str "s2", str "b2", 8, true⟩], 3, 9⟩ []
        [StatusUnseen]).1.Items StatusUnseen
      = some (uint32 (unseenCount
        ⟨[], [⟨1, str "a@x.com", str "b@y.com", str "s1", str "b1", 7, false⟩,
              ⟨2, str "a@x.com", str "c@z.com", str "s1", str "b1", 7, false⟩,
              ⟨3, str "c@z.com", str "b@y.com", str "s2", str "b2", 8, true⟩], 3, 9⟩
        (IMAPMailbox.mk (str "INBOX") (str "b@y.com")).username)) :=
  ⟨by decide,
   (status_unseen_counts_unread ⟨str "INBOX", str "b@y.com"⟩
     ⟨[], [⟨1, str "a@x.com", str "b@y.com", str "s1", str "b1", 7, false⟩,
           ⟨2, str "a@x.com", str "c@z.com", str "s1", str "b1", 7, false⟩,
           ⟨3, str "c@z.com", str "b@y.com", str "s2", str "b2", 8, true⟩], 3, 9⟩ []
     [StatusUnseen] (by simp) (by decide)).1⟩

/-- C11 as stated fails. In a mailbox of 2^32 unread messages the number of
unread rows of the owner is 2^32 while `Status` reports the `Unseen` value 0. -/
theorem status_unseen_counts_unread_fails :
    unseenCount
        ⟨[], (List.range 4294967296).map
          (fun i => ⟨i + 1, str "a@x.com", str "b@y.com", str "s", str "b", 0, false⟩),
          4294967296, 0⟩ (str "b@y.com") = 4294967296 ∧
    (IMAPMailbox.Status ⟨str "INBOX", str "b@y.com"⟩
        ⟨[], (List.range 4294967296).map
          (fun i => ⟨i + 1, str "a@x.com", str "b@y.com", str "s", str "b", 0, false⟩),
          4294967296, 0⟩ []
        [StatusUnseen]).1.Items StatusUnseen = some 0 :=
  have h := big_mailbox_unseen 4294967296 (str "a@x.com") (str "b@y.com") (str "s") (str "b")
  ⟨h.1, h.2.trans (by decide)⟩

/-- C12, at a failing input: for the sender `a@b@c` and the mailbox owner
`a@b@localhost.com` (the address registered for the user name `a@b`), the
envelope has host name `b` in `From` and in `To`: the text between the first
and the second `@`, not all of the text after the first `@`. -/
theorem envelope_host_stops_at_second_at :
    (IMAPMailbox.ListMessages.rows ⟨str "INBOX", str "a@b@localhost.com"⟩ 0 false none
        [FetchEnvelope] (uint32 1) [⟨1, str "a@b@c", str "s", str "b", 7⟩]).1.map
        (fun x => x.Envelope)
      = [some ⟨0, str "s", [⟨str "", str "a", str "b"⟩], [⟨str "", str "a", str "b"⟩]⟩] := by
  decide

/-- C13, at a failing input: the session accepts the null sender `""` (`Mail`),
the recipient `b@y.com` (`Rcpt`) and the message (`Data` returns `nil` and
stores one row); `ListMessages` with the envelope requested then panics on
that row and emits nothing. -/
theorem list_messages_panics_on_stored_sender :
    (SMTPSession.Data
        (SMTPSession.Rcpt (SMTPSession.Mail ⟨[], []⟩ (str "")).1 (str "b@y.com")).1
        ⟨[], [], 0, 7⟩ (.ok (str "Subject: Hi\r\n\r\nHello")) []).2
      = (⟨[], [⟨1, str "", str "b@y.com", str "Hi", str "Hello", 7, false⟩], 1, 7⟩, Exit.nil) ∧
    IMAPMailbox.ListMessages ⟨str "INBOX", str "b@y.com"⟩
        (SMTPSession.Data
          (SMTPSession.Rcpt (SMTPSession.Mail ⟨[], []⟩ (str "")).1 (str "b@y.com")).1
          ⟨[], [], 0, 7⟩ (.ok (str "Subject: Hi\r\n\r\nHello")) []).2.1
        [] 9 false none [FetchEnvelope]
      = ([], Exit.panic) := by
  constructor <;> decide

/-- C14, at a failing input: for a row stored at time 7 the envelope carries the
date 100 when `ListMessages` runs at clock value 100, and the date 200 when it
runs at clock value 200. -/
theorem envelope_date_is_wall_clock :
    (IMAPMailbox.ListMessages ⟨str "INBOX", str "b@y.com"⟩
        ⟨[], [⟨1, str "a@x.com", str "b@y.com", str "s", str "b", 7, false⟩], 1, 9⟩ []
        100 false none [FetchEnvelope]).1.map (fun x => x.Envelope.map (fun e => e.Date))
      = [some 100] ∧
    (IMAPMailbox.ListMessages ⟨str "INBOX", str "b@y.com"⟩
        ⟨[], [⟨1, str "a@x.com", str "b@y.com", str "s", str "b", 7, false⟩], 1, 9⟩ []
        200 false none [FetchEnvelope]).1.map (fun x => x.Envelope.map (fun e => e.Date))
      = [some 200] := by
  constructor <;> decide

/-- C16, at a failing input: the stream `"Subject: Hi\r\nHello"` has no blank
line; the stored body is the whole stream, the `Subject` line included, and
not the empty string. -/
theorem data_body_without_blank_line_is_whole_stream :
    SMTPSession.Data.parse (str "Subject: Hi\r\nHello")
      = some (str "Hi", str "Subject: Hi\r\nHello") ∧
    (SMTPSession.Data ⟨str "a@x.com", [str "b@y.com"]⟩ ⟨[], [], 0, 7⟩
        (.ok (str "Subject: Hi\r\nHello")) []).2.1.emails
      = [⟨1, str "a@x.com", str "b@y.com", str "Hi", str "Subject: Hi\r\nHello", 7, false⟩] := by
  constructor <;> decide

/-- C18, at a failing input: when the counting query fails with
`disk I/O error` on a mailbox that holds one message, `Status` returns `nil`
and a status whose `Messages` (and `Unseen`) value is 0. -/
theorem status_drops_query_error :
    (IMAPMailbox.Status ⟨str "INBOX", str "b@y.com"⟩
        ⟨[], [⟨1, str "a@x.com", str "b@y.com", str "s", str "b", 7, false⟩], 1, 9⟩
        [some "disk I/O error"] [StatusMessages]).2 = Exit.nil ∧
    (IMAPMailbox.Status ⟨str "INBOX", str "b@y.com"⟩
        ⟨[], [⟨1, str "a@x.com", str "b@y.com", str "s", str "b", 7, false⟩], 1, 9⟩
        [some "disk I/O error"] [StatusMessages]).1.Items StatusMessages = some 0 ∧
    (IMAPMailbox.Status ⟨str "INBOX", str "b@y.com"⟩
        ⟨[], [⟨1, str "a@x.com", str "b@y.com", str "s", str "b", 7, false⟩], 1, 9⟩
        [some "disk I/O error"] [StatusUnseen]).1.Items StatusUnseen = some 0 := by
  refine ⟨by decide, by decide, by decide⟩

/-- C17. Missing subject: when no line of the header section begins with
`Subject:` in any letter case, the parsed subject is the empty string; and when
the inserts go through, `Data` returns `nil` and writes one row per recipient,
each with the empty subject. -/
theorem data_without_subject (s : SMTPSession) (db : DB) (content : Str) (plan : Plan)
    (hno : ∀ l ∈ headerLines content, HasPrefix (ToLower l) (str "subject:") = false)
    (hok : ∀ i, i < s.to_.length → plan.getD i none = none) :
    ∃ body,
      SMTPSession.Data.parse content = some ([], body) ∧
      (SMTPSession.Data s db (.ok content) plan).2.2 = Exit.nil ∧
      (SMTPSession.Data s db (.ok content) plan).2.1.emails
        = db.emails ++ fanOutRows s.from_ [] body db.clock db.nextId s.to_ ∧
      (fanOutRows s.from_ [] body db.clock db.nextId s.to_).map Email.to_email = s.to_ ∧
      (∀ x ∈ fanOutRows s.from_ [] body db.clock db.nextId s.to_, x.subject = []) := by
  obtain ⟨body, hb⟩ := parse_subject content
  rw [foldSubject_of_no_subject _ _ hno] at hb
  have h := store_ok s.from_ [] body s.to_ db plan hok
  refine ⟨body, hb, ?_, ?_, fanOutRows_to _ _ _ _ _ _, ?_⟩
  · simp only [SMTPSession.Data, hb]; exact h.1
  · simp only [SMTPSession.Data, hb]; exact h.2.1
  · intro x hx
    exact (fanOutRows_same _ _ _ _ _ _ x hx).2.1

/-- C17, on a stream whose only `Subject:` line stands in the body: the stored
subject is empty and the row is written. -/
theorem data_without_subject_witness :
    (SMTPSession.Data ⟨str "a@x.com", [str "b@y.com"]⟩ ⟨[], [], 0, 7⟩
        (.ok (str "X-Id: 1\r\n\r\nSubject: no")) []).2
      = (⟨[], [⟨1, str "a@x.com", str "b@y.com", str "", str "Subject: no", 7, false⟩], 1, 7⟩,
         Exit.nil) ∧
    ∃ body,
      SMTPSession.Data.parse (str "X-Id: 1\r\n\r\nSubject: no") = some ([], body) ∧
      (SMTPSession.Data ⟨str "a@x.com", [str "b@y.com"]⟩ ⟨[], [], 0, 7⟩
        (.ok (str "X-Id: 1\r\n\r\nSubject: no")) []).2.2 = Exit.nil ∧
      (SMTPSession.Data ⟨str "a@x.com", [str "b@y.com"]⟩ ⟨[], [], 0, 7⟩
        (.ok (str "X-Id: 1\r\n\r\nSubject: no")) []).2.1.emails
        = (⟨[], [], 0, 7⟩ : DB).emails ++
          fanOutRows (SMTPSession.mk (str "a@x.com") [str "b@y.com"]).from_ [] body
            (⟨[], [], 0, 7⟩ : DB).clock (⟨[], [], 0, 7⟩ : DB).nextId
            (SMTPSession.mk (str "a@x.com") [str "b@y.com"]).to_ ∧
      (fanOutRows (SMTPSession.mk (str "a@x.com") [str "b@y.com"]).from_ [] body
            (⟨[], [], 0, 7⟩ : DB).clock (⟨[], [], 0, 7⟩ : DB).nextId
            (SMTPSession.mk (str "a@x.com") [str "b@y.com"]).to_).map Email.to_email
        = (SMTPSession.mk (str "a@x.com") [str "b@y.com"]).to_ ∧
      (∀ x ∈ fanOutRows (SMTPSession.mk (str "a@x.com") [str "b@y.com"]).from_ [] body
            (⟨[], [], 0, 7⟩ : DB).clock (⟨[], [], 0, 7⟩ : DB).nextId
            (SMTPSession.mk (str "a@x.com") [str "b@y.com"]).to_, x.subject = []) :=
  ⟨by decide,
   data_without_subject ⟨str "a@x.com", [str "b@y.com"]⟩ ⟨[], [], 0, 7⟩
     (str "X-Id: 1\r\n\r\nSubject: no") [] (by decide) (by decide)⟩

/-- C20. `Status` returns only requested counters: each of the five counters is
a key of the returned `Items` exactly when it occurs in the request, no other
key is ever set, and an empty request gives an empty map; the queries sent to
the store are one per requested `Messages` or `Unseen` item, in request order,
and the result depends on the driver only through the outcomes of these. -/
theorem status_only_requested_counters (m : IMAPMailbox) (db : DB) (plan : Plan)
    (items : List StatusItem) :
    (∀ k ∈ statusCounters,
      (((IMAPMailbox.Status m db plan items).1.Items k).isSome = true ↔ k ∈ items)) ∧
    (∀ k, k ∉ statusCounters → (IMAPMailbox.Status m db plan items).1.Items k = none) ∧
    (∀ k, (IMAPMailbox.Status m db plan []).1.Items k = none) ∧
    IMAPMailbox.Status.sent m items
      = (items.filter (fun i => i = StatusMessages || i = StatusUnseen)).map
          (fun i => if i = StatusMessages then Query.countMessages m.username
                    else Query.countUnseen m.username) ∧
    (∀ plan2 : Plan,
      (∀ i, i < (IMAPMailbox.Status.sent m items).length →
        plan.getD i none = plan2.getD i none) →
      (IMAPMailbox.Status m db plan2 items).1.Items
        = (IMAPMailbox.Status m db plan items).1.Items) := by
  have hl := fun k => status_loop_isSome m db k items plan (fun _ => none)
  refine ⟨fun k hk => ?_, fun k hk => ?_, fun k => rfl, status_sent_eq m items,
    fun plan2 h => ?_⟩
  · simp only [IMAPMailbox.Status]
    rw [hl k]
    simp [hk]
  · have h2 := hl k
    simp only [IMAPMailbox.Status]
    cases hv : IMAPMailbox.Status.loop m db items plan (fun _ => none) k with
    | none => rfl
    | some v =>
      rw [hv] at h2
      simp [hk] at h2
  · simp only [IMAPMailbox.Status]
    exact (status_loop_reads m db items plan plan2 _ h).symm

/-- C19, as amended. Fan-out rows are independent: after `Data` with the
recipient list `[r1, r2]` and inserts that go through, the store holds, after
its earlier rows, two new unread rows `e1` for `r1` and `e2` for `r2` with
distinct ids; the read-flag update by the id of `e1` changes nothing in the
table but the read flag of `e1`, and, when `r1` and `r2` differ, leaves every
`Status` result of the mailbox of `r2` unchanged (its unseen count included);
and likewise with `e1`, `e2` swapped. -/
theorem fan_out_rows_independent (s : SMTPSession) (db : DB) (content : Str) (plan : Plan)
    (r1 r2 : Str) (hto : s.to_ = [r1, r2])
    (hok : ∀ i, i < 2 → plan.getD i none = none) :
    ∃ e1 e2 : Email,
      (SMTPSession.Data s db (.ok content) plan).2.1.emails = db.emails ++ [e1, e2] ∧
      e1.to_email = r1 ∧ e2.to_email = r2 ∧ e1.id ≠ e2.id ∧
      e1.read = false ∧ e2.read = false ∧
      (∃ d1, (SMTPSession.Data s db (.ok content) plan).2.1.markRead none e1.id = .ok d1 ∧
        d1.emails = db.emails ++ [{ e1 with read := true }, e2] ∧
        (r1 ≠ r2 →
          ∀ (m : IMAPMailbox) (planS : Plan) (items : List StatusItem), m.username = r2 →
            (IMAPMailbox.Status m d1 planS items).1.Items
              = (IMAPMailbox.Status m (SMTPSession.Data s db (.ok content) plan).2.1
                  planS items).1.Items)) ∧
      (∃ d2, (SMTPSession.Data s db (.ok content) plan).2.1.markRead none e2.id = .ok d2 ∧
        d2.emails = db.emails ++ [e1, { e2 with read := true }] ∧
        (r1 ≠ r2 →
          ∀ (m : IMAPMailbox) (planS : Plan) (items : List StatusItem), m.username = r1 →
            (IMAPMailbox.Status m d2 planS items).1.Items
              = (IMAPMailbox.Status m (SMTPSession.Data s db (.ok content) plan).2.1
                  planS items).1.Items)) := by
  obtain ⟨subject, body, hp⟩ := parse_isSome content
  have h := store_ok s.from_ subject body s.to_ db plan (by rw [hto]; exact hok)
  have hE : (SMTPSession.Data s db (.ok content) plan).2.1.emails
      = db.emails ++ [⟨db.nextId, s.from_, r1, subject, body, db.clock, false⟩,
          ⟨db.nextId + 1, s.from_, r2, subject, body, db.clock, false⟩] := by
    simp only [SMTPSession.Data, hp]
    rw [h.2.1, hto]
    rfl
  generalize (SMTPSession.Data s db (.ok content) plan).2.1 = db2 at hE
  have hold1 := map_markRead_old db db.nextId (Nat.le_refl _)
  have hold2 := map_markRead_old db (db.nextId + 1) (Nat.le_succ _)
  refine ⟨⟨db.nextId, s.from_, r1, subject, body, db.clock, false⟩,
    ⟨db.nextId + 1, s.from_, r2, subject, body, db.clock, false⟩, hE, rfl, rfl,
    by simp, rfl, rfl, ?_, ?_⟩
  · refine ⟨_, rfl, ?_, ?_⟩
    · simp only [hE, List.map_append, hold1]
      simp
    · intro hne m planS items hm
      simp only [IMAPMailbox.Status]
      refine status_loop_congr m _ db2 (fun o => ?_) (fun o => ?_) items planS _
      · apply countEmails_congr
        simp [hE, hold1, hm, hne]
      · apply countEmails_congr
        simp [hE, hold1, hm, hne]
  · refine ⟨_, rfl, ?_, ?_⟩
    · simp only [hE, List.map_append, hold2]
      simp
    · intro hne m planS items hm
      simp only [IMAPMailbox.Status]
      refine status_loop_congr m _ db2 (fun o => ?_) (fun o => ?_) items planS _
      · apply countEmails_congr
        simp [hE, hold2, hm, Ne.symm hne]
      · apply countEmails_congr
        simp [hE, hold2, hm, Ne.symm hne]

/-- C19, for the recipients `b@y.com` and `c@z.com` on an empty store: two rows
with the ids 1 and 2 are written; after the row with id 1 is marked read the
unseen count of `c@z.com` is still 1. -/
theorem fan_out_rows_independent_witness :
    (SMTPSession.Data ⟨str "a@x.com", [str "b@y.com", str "c@z.com"]⟩ ⟨[], [], 0, 7⟩
        (.ok (str "Subject: Hi\r\n\r\nHello")) []).2.1.emails
      = [⟨1, str "a@x.com", str "b@y.com", str "Hi", str "Hello", 7, false⟩,
         ⟨2, str "a@x.com", str "c@z.com", str "Hi", str "Hello", 7, false⟩] ∧
    (((SMTPSession.Data ⟨str "a@x.com", [str "b@y.com", str "c@z.com"]⟩ ⟨[], [], 0, 7⟩
        (.ok (str "Subject: Hi\r\n\r\nHello")) []).2.1.markRead none 1).toOption.map
        (fun d => (IMAPMailbox.Status ⟨str "INBOX", str "c@z.com"⟩ d []
          [StatusUnseen]).1.Items StatusUnseen)) = some (some 1) ∧
    ∃ e1 e2 : Email,
      (SMTPSession.Data ⟨str "a@x.com", [str "b@y.com", str "c@z.com"]⟩ ⟨[], [], 0, 7⟩
        (.ok (str "Subject: Hi\r\n\r\nHello")) []).2.1.emails
        = (⟨[], [], 0, 7⟩ : DB).emails ++ [e1, e2] ∧ e1.id ≠ e2.id :=
  ⟨by decide, by decide,
   (fan_out_rows_independent ⟨str "a@x.com", [str "b@y.com", str "c@z.com"]⟩ ⟨[], [], 0, 7⟩
     (str "Subject: Hi\r\n\r\nHello") [] (str "b@y.com") (str "c@z.com") rfl
     (by decide)).imp
     (fun _ h => h.imp (fun _ h2 => ⟨h2.1, h2.2.2.2.1⟩))⟩

/-- C19 as stated fails. With the recipient list `[b@y.com, b@y.com]` `Data`
writes two unread rows, with the ids 1 and 2, into the one mailbox of
`b@y.com`, whose unseen count is 2; after the read-flag update by id 1 the row
with id 2 is still unread, but the unseen count of `b@y.com` is 1. -/
theorem fan_out_rows_independent_fails :
    (SMTPSession.Data ⟨str "a@x.com", [str "b@y.com", str "b@y.com"]⟩ ⟨[], [], 0, 7⟩
        (.ok (str "Subject: Hi\r\n\r\nHello")) []).2.1.emails
      = [⟨1, str "a@x.com", str "b@y.com", str "Hi", str "Hello", 7, false⟩,
         ⟨2, str "a@x.com", str "b@y.com", str "Hi", str "Hello", 7, false⟩] ∧
    (IMAPMailbox.Status ⟨str "INBOX", str "b@y.com"⟩
        (SMTPSession.Data ⟨str "a@x.com", [str "b@y.com", str "b@y.com"]⟩ ⟨[], [], 0, 7⟩
          (.ok (str "Subject: Hi\r\n\r\nHello")) []).2.1 []
        [StatusUnseen]).1.Items StatusUnseen = some 2 ∧
    (((SMTPSession.Data ⟨str "a@x.com", [str "b@y.com", str "b@y.com"]⟩ ⟨[], [], 0, 7⟩
        (.ok (str "Subject: Hi\r\n\r\nHello")) []).2.1.markRead none 1).toOption.map
        (fun d => d.emails))
      = some [⟨1, str "a@x.com", str "b@y.com", str "Hi", str "Hello", 7, true⟩,
              ⟨2, str "a@x.com", str "b@y.com", str "Hi", str "Hello", 7, false⟩] ∧
    (((SMTPSession.Data ⟨str "a@x.com", [str "b@y.com", str "b@y.com"]⟩ ⟨[], [], 0, 7⟩
        (.ok (str "Subject: Hi\r\n\r\nHello")) []).2.1.markRead none 1).toOption.map
        (fun d => (IMAPMailbox.Status ⟨str "INBOX", str "b@y.com"⟩ d []
          [StatusUnseen]).1.Items StatusUnseen)) = some (some 1) := by
  refine ⟨by decide, by decide, by decide, by decide⟩

/-- C15, as amended. On rows whose envelope can be built and that number fewer
than 2^32 with the new row, the unfiltered listing of `pre ++ post` gives the
rows of `pre` the sequence numbers `1..` and the rows of `post` the numbers
from `len(pre) + 1`; the listing of `pre ++ [r] ++ post` gives every row of
`pre` the same `SeqNum`, the new row `len(pre) + 1`, and every row of `post`
its former `SeqNum` plus 1; every row has `uint32(id)` as `Uid` in both. -/
theorem sequence_numbers_shift_uids_stay (m : IMAPMailbox) (now : Nat)
    (items : List FetchItem) (pre post : List Row) (r : Row)
    (hsafe : envelopeSafe m items (pre ++ r :: post))
    (hlen : pre.length + post.length + 1 < 2 ^ 32) :
    (IMAPMailbox.ListMessages.rows m now false none items (uint32 1) (pre ++ post)).1.map
        (fun x => (x.SeqNum, x.Uid))
      = (pre.enumFrom 1).map (fun p => (p.1, uint32 p.2.id)) ++
        (post.enumFrom (pre.length + 1)).map (fun p => (p.1, uint32 p.2.id)) ∧
    (IMAPMailbox.ListMessages.rows m now false none items (uint32 1)
        (pre ++ r :: post)).1.map (fun x => (x.SeqNum, x.Uid))
      = (pre.enumFrom 1).map (fun p => (p.1, uint32 p.2.id)) ++
        (pre.length + 1, uint32 r.id) ::
        (post.enumFrom (pre.length + 1)).map (fun p => (p.1 + 1, uint32 p.2.id)) := by
  have hsafe2 : envelopeSafe m items (pre ++ post) := fun hm =>
    ⟨(hsafe hm).1, fun x hx => (hsafe hm).2 x (by
      rcases List.mem_append.mp hx with h | h
      · exact List.mem_append_left _ h
      · exact List.mem_append_right _ (List.mem_cons_of_mem _ h))⟩
  have h1 := rows_all_pairs_of_lt m now false items (pre ++ post) hsafe2
    (by rw [List.length_append]; omega)
  have h2 := rows_all_pairs_of_lt m now false items (pre ++ r :: post) hsafe
    (by rw [List.length_append, List.length_cons]; omega)
  have e : 1 + pre.length = pre.length + 1 := Nat.add_comm _ _
  constructor
  · rw [h1, List.enumFrom_append, List.map_append, e]
  · have e2 : (post.enumFrom (pre.length + 1 + 1)).map (fun p => (p.1, uint32 p.2.id))
        = (post.enumFrom (pre.length + 1)).map (fun p => (p.1 + 1, uint32 p.2.id)) :=
      enumFrom_succ_map (fun n x => (n, uint32 x.id)) post (pre.length + 1)
    rw [h2, List.enumFrom_append, List.map_append, e, List.enumFrom_cons, List.map_cons, e2]

/-- C15, for a new row between two rows: the newer row keeps `SeqNum` 1, the
new row gets 2, the older row goes from 2 to 3; the `Uid`s stay 30 and 10. -/
theorem sequence_numbers_shift_uids_stay_witness :
    (IMAPMailbox.ListMessages.rows ⟨str "INBOX", str "b@y.com"⟩ 0 false none
        [FetchEnvelope] (uint32 1)
        [⟨30, str "a@x.com", str "s3", str "b3", 9⟩,
         ⟨10, str "a@x.com", str "s1", str "b1", 7⟩]).1.map (fun x => (x.SeqNum, x.Uid))
      = [(1, 30), (2, 10)] ∧
    (IMAPMailbox.ListMessages.rows ⟨str "INBOX", str "b@y.com"⟩ 0 false none
        [FetchEnvelope] (uint32 1)
        [⟨30, str "a@x.com", str "s3", str "b3", 9⟩,
         ⟨40, str "a@x.com", str "s4", str "b4", 8⟩,
         ⟨10, str "a@x.com", str "s1", str "b1", 7⟩]).1.map (fun x => (x.SeqNum, x.Uid))
      = [(1, 30), (2, 40), (3, 10)] :=
  ⟨by decide,
   (sequence_numbers_shift_uids_stay ⟨str "INBOX", str "b@y.com"⟩ 0 [FetchEnvelope]
     [⟨30, str "a@x.com", str "s3", str "b3", 9⟩] [⟨10, str "a@x.com", str "s1", str "b1", 7⟩]
     ⟨40, str "a@x.com", str "s4", str "b4", 8⟩ (by decide) (by decide)).2.trans (by decide)⟩

/-- C15 as stated fails. Of 2^32 - 1 rows the last has `SeqNum` 2^32 - 1; with a
new row in front of them it has `SeqNum` 0, not 2^32. And when the new row has
the null sender `""` and the envelope is requested, the listing panics at the
new row: the older row, emitted with `SeqNum` 1 before, is not emitted. -/
theorem sequence_numbers_shift_uids_stay_fails :
    (((IMAPMailbox.ListMessages.rows ⟨str "INBOX", str "b@y.com"⟩ 0 false none [] (uint32 1)
        ((List.range 4294967295).map
          (fun k => ⟨k + 1, str "a@x.com", str "s", str "b", 0⟩))).1.map
        (fun x => x.SeqNum))[4294967294]? = some 4294967295 ∧
     ((IMAPMailbox.ListMessages.rows ⟨str "INBOX", str "b@y.com"⟩ 0 false none [] (uint32 1)
        (⟨4294967296, str "a@x.com", str "s", str "b", 1⟩ ::
          (List.range 4294967295).map
            (fun k => ⟨k + 1, str "a@x.com", str "s", str "b", 0⟩))).1.map
        (fun x => x.SeqNum))[4294967295]? = some 0) ∧
    ((IMAPMailbox.ListMessages.rows ⟨str "INBOX", str "b@y.com"⟩ 0 false none
        [FetchEnvelope] (uint32 1)
        [⟨1, str "a@x.com", str "s", str "b", 7⟩]).1.map (fun x => (x.SeqNum, x.Uid))
      = [(1, 1)] ∧
     IMAPMailbox.ListMessages.rows ⟨str "INBOX", str "b@y.com"⟩ 0 false none
        [FetchEnvelope] (uint32 1)
        [⟨2, str "", str "s", str "b", 8⟩, ⟨1, str "a@x.com", str "s", str "b", 7⟩]
      = ([], Exit.panic)) :=
  ⟨⟨(big_row_list 4294967295 (str "a@x.com") (str "s") (str "b") 4294967294 (by decide)).trans
      (by decide),
    (big_row_list_cons 4294967295 ⟨4294967296, str "a@x.com", str "s", str "b", 1⟩
      (str "a@x.com") (str "s") (str "b") 4294967295 (by decide)).trans (by decide)⟩,
   by decide, by decide⟩

/-- C21. Only requested fetch attributes are assembled: in every message that
`ListMessages` emits, `Envelope` is set exactly when the item `Envelope` is
requested, `BodyStructure` is the descriptor `text/plain` when the item
`BodyStructure` is requested and unset otherwise, and `Flags` is the empty list
when the item `Flags` is requested and unset otherwise. -/
theorem only_requested_attributes (m : IMAPMailbox) (db : DB) (plan : Plan) (now : Nat)
    (uid : Bool) (seqSet : Option SeqSet) (items : List FetchItem) (msg : Message)
    (h : msg ∈ (IMAPMailbox.ListMessages m db plan now uid seqSet items).1) :
    (msg.Envelope.isSome = true ↔ FetchEnvelope ∈ items) ∧
    msg.BodyStructure
      = (if FetchBodyStructure ∈ items then some ⟨str "text", str "plain"⟩ else none) ∧
    msg.Flags = (if FetchFlags ∈ items then some [] else none) := by
  obtain ⟨q, r, hf⟩ := list_messages_mem m db plan now uid seqSet items msg h
  have h2 := fill_fields m now r items _ _ hf
  simp only [newMessage, Option.isSome_none, Bool.false_eq_true, or_false] at h2
  exact h2

/-- C21, for a request of `Flags` alone: the one message emitted has `Flags`
the empty list and neither `Envelope` nor `BodyStructure`. -/
theorem only_requested_attributes_witness :
    (IMAPMailbox.ListMessages ⟨str "INBOX", str "b@y.com"⟩
        ⟨[], [⟨1, str "a@x.com", str "b@y.com", str "s", str "b", 7, false⟩], 1, 9⟩ []
        0 false none [FetchFlags]).1
      = [⟨1, 1, none, none, some []⟩] ∧
    ((Message.mk 1 1 none none (some [])).Envelope.isSome = true ↔
      FetchEnvelope ∈ [FetchFlags]) :=
  ⟨by decide,
   (only_requested_attributes ⟨str "INBOX", str "b@y.com"⟩
     ⟨[], [⟨1, str "a@x.com", str "b@y.com", str "s", str "b", 7, false⟩], 1, 9⟩ []
     0 false none [FetchFlags] ⟨1, 1, none, none, some []⟩ (by decide)).1⟩

/-- C22. Single fixed mailbox: `ListMailboxes` returns exactly one mailbox, named
`INBOX` and owned by the user; `GetMailbox(name)` succeeds exactly when `name`
is `INBOX`, with that name and the user's address, and fails with
`mailbox not found` for every other name. -/
theorem single_fixed_mailbox (u : IMAPUser) (subscribed : Bool) (name : Str) :
    u.ListMailboxes subscribed = ([⟨str "INBOX", u.username⟩], Exit.nil) ∧
    ((∃ mb, u.GetMailbox name = .ok mb) ↔ name = str "INBOX") ∧
    u.GetMailbox (str "INBOX") = .ok ⟨str "INBOX", u.username⟩ ∧
    (name ≠ str "INBOX" → u.GetMailbox name = .error "mailbox not found") := by
  refine ⟨rfl, ?_, by simp [IMAPUser.GetMailbox], fun h => by simp [IMAPUser.GetMailbox, h]⟩
  by_cases h : name = str "INBOX"
  · subst h
    simp [IMAPUser.GetMailbox]
  · simp [IMAPUser.GetMailbox, h]

/-- C23. `Reset` clears the session: afterwards the sender is `""` and the
recipient list is empty; a `Data` that follows directly writes no row and
returns `nil`; and after any `Mail` and any recipients `later` added since,
the recipient list is `later`, so every row a `Data` then writes, under any
driver plan, goes to one of `later`. -/
theorem reset_clears_session (s : SMTPSession) (db : DB) (content : Str) (plan : Plan)
    (sender : Str) (later : List Str) :
    s.Reset.from_ = [] ∧ s.Reset.to_ = [] ∧
    SMTPSession.Data s.Reset db (.ok content) plan = (s.Reset, db, Exit.nil) ∧
    (later.foldl (fun t r => (t.Rcpt r).1) (s.Reset.Mail sender).1).to_ = later ∧
    (∀ x ∈ (SMTPSession.Data (later.foldl (fun t r => (t.Rcpt r).1) (s.Reset.Mail sender).1)
        db (.ok content) plan).2.1.emails, x ∈ db.emails ∨ x.to_email ∈ later) := by
  have hto : (later.foldl (fun t r => (t.Rcpt r).1) (s.Reset.Mail sender).1).to_ = later := by
    rw [(foldl_Rcpt later _).1]; rfl
  obtain ⟨subject, body, hp⟩ := parse_isSome content
  refine ⟨rfl, rfl, ?_, hto, ?_⟩
  · simp [SMTPSession.Data, hp, SMTPSession.Reset, SMTPSession.Data.store]
  · intro x hx
    simp only [SMTPSession.Data, hp, hto] at hx
    obtain ⟨k, _, hem, _⟩ := store_prefix
      (later.foldl (fun t r => (t.Rcpt r).1) (s.Reset.Mail sender).1).from_ subject body
      later db plan
    rw [hem] at hx
    rcases List.mem_append.mp hx with h | h
    · exact Or.inl h
    · exact Or.inr (List.mem_of_mem_take (mem_fanOutRows_to _ _ _ _ _ _ x h))

/-- C24. Unsupported and stub operations: `CreateMailbox`, `DeleteMailbox`,
`RenameMailbox`, `CreateMessage` and `CopyMessages` return the error
`operation not supported`, `UpdateMessagesFlags` and `Expunge` return `nil`, and
each of the seven leaves the store as it was, so that `Status` and
`ListMessages` give the same results after it as before. -/
theorem unsupported_operations (u : IMAPUser) (m : IMAPMailbox) (db : DB)
    (name newName destName body : Str) (flags : List Str) (date : Nat) (uid : Bool)
    (seqset : Option SeqSet) (operation : String) :
    u.CreateMailbox db name = (db, Exit.error "operation not supported") ∧
    u.DeleteMailbox db name = (db, Exit.error "operation not supported") ∧
    u.RenameMailbox db name newName = (db, Exit.error "operation not supported") ∧
    m.CreateMessage db flags date body = (db, Exit.error "operation not supported") ∧
    m.CopyMessages db uid seqset destName = (db, Exit.error "operation not supported") ∧
    m.UpdateMessagesFlags db uid seqset operation flags = (db, Exit.nil) ∧
    m.Expunge db = (db, Exit.nil) ∧
    (∀ d ∈ [(u.CreateMailbox db name).1, (u.DeleteMailbox db name).1,
        (u.RenameMailbox db name newName).1, (m.CreateMessage db flags date body).1,
        (m.CopyMessages db uid seqset destName).1,
        (m.UpdateMessagesFlags db uid seqset operation flags).1, (m.Expunge db).1],
      ∀ (m2 : IMAPMailbox) (plan : Plan) (items : List StatusItem) (now : Nat) (uid2 : Bool)
        (sel : Option SeqSet) (fetch : List FetchItem),
        (IMAPMailbox.Status m2 d plan items).1.Items
          = (IMAPMailbox.Status m2 db plan items).1.Items ∧
        IMAPMailbox.ListMessages m2 d plan now uid2 sel fetch
          = IMAPMailbox.ListMessages m2 db plan now uid2 sel fetch) := by
  refine ⟨rfl, rfl, rfl, rfl, rfl, rfl, rfl, ?_⟩
  intro d hd
  have hdb : d = db := by
    simp only [List.mem_cons, List.mem_singleton, List.not_mem_nil, or_false] at hd
    rcases hd with h | h | h | h | h | h | h <;> exact h
  subst hdb
  intro m2 plan items now uid2 sel fetch
  exact ⟨rfl, rfl⟩

/-- C25. The subject slice is always in bounds: a line whose lower-cased text
has the prefix `subject:` has at least 8 bytes, so the slice `line[8:]` is
taken without a fault; the parse of `Data` yields a subject and a body on every
stream, and `Data` never ends with a panic. -/
theorem subject_slice_in_bounds :
    (∀ line : Str, HasPrefix (ToLower line) (str "subject:") = true →
      8 ≤ line.length ∧ sliceFrom line 8 = some (line.drop 8)) ∧
    (∀ content : Str, ∃ subject body, SMTPSession.Data.parse content = some (subject, body)) ∧
    (∀ (s : SMTPSession) (db : DB) (r : Except Error Str) (plan : Plan),
      (SMTPSession.Data s db r plan).2.2 ≠ Exit.panic) := by
  refine ⟨fun line h => ?_, parse_isSome, Data_exit⟩
  have h8 := length_of_HasPrefix_subject line h
  exact ⟨h8, by simp [sliceFrom, h8]⟩

/-- C26. Which subject line wins: when `p ++ rest`, with `p` spelling `subject:`
in some letter case, is the last such line of the header section (the lines
before the first blank line, all lines when there is none), the stored subject
is `rest` trimmed, whatever lines precede it; and it is the same for every
stream with the same header section, whatever its body holds. -/
theorem last_subject_line_wins (content : Str) (pre post : List Str) (p rest : Str)
    (hhdr : headerLines content = pre ++ (p ++ rest) :: post)
    (hp : ToLower p = str "subject:")
    (hlast : ∀ l ∈ post, HasPrefix (ToLower l) (str "subject:") = false) :
    (∃ body, SMTPSession.Data.parse content = some (TrimSpace rest, body)) ∧
    (∀ content2 : Str, headerLines content2 = headerLines content →
      ∃ body2, SMTPSession.Data.parse content2 = some (TrimSpace rest, body2)) := by
  have hf : foldSubject (pre ++ (p ++ rest) :: post) [] = TrimSpace rest := by
    rw [foldSubject_append, foldSubject_subject_line p rest _ hp,
      foldSubject_of_no_subject post _ hlast]
  constructor
  · obtain ⟨body, hb⟩ := parse_subject content
    exact ⟨body, by rw [hb, hhdr, hf]⟩
  · intro content2 h2
    obtain ⟨body, hb⟩ := parse_subject content2
    exact ⟨body, by rw [hb, h2, hhdr, hf]⟩

/-- C26, on a stream with two subject lines in the header and one in the body:
the second header line gives the subject `B`. -/
theorem last_subject_line_wins_witness :
    SMTPSession.Data.parse (str "Subject: A\r\nsubject: B\r\n\r\nSubject: C")
      = some (str "B", str "Subject: C") ∧
    ∃ body, SMTPSession.Data.parse (str "Subject: A\r\nsubject: B\r\n\r\nSubject: C")
      = some (TrimSpace (str " B\r"), body) :=
  ⟨by decide,
   (last_subject_line_wins (str "Subject: A\r\nsubject: B\r\n\r\nSubject: C")
     [str "Subject: A\r"] [] (str "subject:") (str " B\r") (by decide) (by decide)
     (by decide)).1⟩

/-- C27. `Data` does not consume the envelope: it returns the session as it
was, whether it succeeds or fails; `Mail` replaces the sender alone; `Rcpt`
appends its argument to the recipients, keeping the earlier ones. So, when the
inserts go through, a second `Data` writes again to every recipient, and a
recipient added twice gets two rows. -/
theorem data_keeps_envelope (s : SMTPSession) (db : DB) (content : Str) (plan plan2 : Plan)
    (sender rcpt : Str)
    (hok : ∀ i, plan.getD i none = none) (hok2 : ∀ i, plan2.getD i none = none) :
    (∀ (r : Except Error Str) (plan0 : Plan), (SMTPSession.Data s db r plan0).1 = s) ∧
    s.Mail sender = ({ from_ := sender, to_ := s.to_ }, Exit.nil) ∧
    s.Rcpt rcpt = ({ from_ := s.from_, to_ := s.to_ ++ [rcpt] }, Exit.nil) ∧
    (SMTPSession.Data (SMTPSession.Data s db (.ok content) plan).1
        (SMTPSession.Data s db (.ok content) plan).2.1 (.ok content) plan2).2.1.emails.map
        Email.to_email
      = db.emails.map Email.to_email ++ s.to_ ++ s.to_ ∧
    (SMTPSession.Data ((s.Rcpt rcpt).1.Rcpt rcpt).1 db (.ok content) plan).2.1.emails.map
        Email.to_email
      = db.emails.map Email.to_email ++ (s.to_ ++ [rcpt, rcpt]) := by
  refine ⟨fun r plan0 => Data_session s db r plan0, rfl, rfl, ?_, ?_⟩
  · rw [Data_session]
    rw [(Data_ok_emails s _ content plan2 (fun i _ => hok2 i)).1,
      (Data_ok_emails s db content plan (fun i _ => hok i)).1]
  · rw [(Data_ok_emails _ db content plan (fun i _ => hok i)).1]
    simp [SMTPSession.Rcpt]

/-- C27, for one recipient added twice and two `Data` calls on an empty store:
the session is unchanged and the store holds four rows for `b@y.com`. -/
theorem data_keeps_envelope_witness :
    (SMTPSession.Data ⟨str "a@x.com", [str "b@y.com", str "b@y.com"]⟩ ⟨[], [], 0, 7⟩
        (.ok (str "Subject: Hi\r\n\r\nHello")) []).1
      = ⟨str "a@x.com", [str "b@y.com", str "b@y.com"]⟩ ∧
    (SMTPSession.Data
        (SMTPSession.Data ⟨str "a@x.com", [str "b@y.com", str "b@y.com"]⟩ ⟨[], [], 0, 7⟩
          (.ok (str "Subject: Hi\r\n\r\nHello")) []).1
        (SMTPSession.Data ⟨str "a@x.com", [str "b@y.com", str "b@y.com"]⟩ ⟨[], [], 0, 7⟩
          (.ok (str "Subject: Hi\r\n\r\nHello")) []).2.1
        (.ok (str "Subject: Hi\r\n\r\nHello")) []).2.1.emails.map Email.to_email
      = (⟨[], [], 0, 7⟩ : DB).emails.map Email.to_email ++
        (SMTPSession.mk (str "a@x.com") [str "b@y.com", str "b@y.com"]).to_ ++
        (SMTPSession.mk (str "a@x.com") [str "b@y.com", str "b@y.com"]).to_ :=
  ⟨by decide,
   (data_keeps_envelope ⟨str "a@x.com", [str "b@y.com", str "b@y.com"]⟩ ⟨[], [], 0, 7⟩
     (str "Subject: Hi\r\n\r\nHello") [] [] (str "c@z.com") (str "d@w.com") (by simp)
     (by simp)).2.2.2.1⟩

/-- C28. Registered addresses split safely, whatever `strings.ToLower` (the
parameter `toLower`) does: when the form values pass the validation of
`registerHandler` (the trimmed lower-cased user name and the password are not
empty, the domain is one of the allowed domains), the address built by
`createEmailAddress` is the lower-cased user name, `@` and the domain; it is
the user name, `@` and the domain exactly when lower-casing the user name
again changes nothing, hence whenever `strings.ToLower` leaves trimmed
lower-cased text as it is, and for every ASCII user name when `strings.ToLower`
lower-cases ASCII text byte by byte; it ends with `@` and the domain, holds an `@`,
splits on `@` into at least two parts, and the envelope address of it is built
without a fault; the handler answers neither `all fields required` nor
`invalid domain`, and when it creates the account it stores it under this
address. -/
theorem registered_address_splits (toLower : Str → Str) (generate : Str → Except Error Str)
    (db : DB) (plan : Plan) (formUsername formDomain formPassword : Str)
    (hu : TrimSpace (toLower formUsername) ≠ [])
    (hd : formDomain ∈ EmailServer.domains) (hpw : formPassword ≠ []) :
    EmailServer.createEmailAddress toLower (TrimSpace (toLower formUsername)) formDomain
      = toLower (TrimSpace (toLower formUsername)) ++ str "@" ++ formDomain ∧
    (EmailServer.createEmailAddress toLower (TrimSpace (toLower formUsername)) formDomain
        = TrimSpace (toLower formUsername) ++ str "@" ++ formDomain ↔
      toLower (TrimSpace (toLower formUsername)) = TrimSpace (toLower formUsername)) ∧
    ((∀ x : Str, toLower (TrimSpace (toLower x)) = TrimSpace (toLower x)) →
      EmailServer.createEmailAddress toLower (TrimSpace (toLower formUsername)) formDomain
        = TrimSpace (toLower formUsername) ++ str "@" ++ formDomain) ∧
    ((∀ x : Str, (∀ b ∈ x, b < 128) → toLower x = ToLower x) →
      (∀ b ∈ formUsername, b < 128) →
      EmailServer.createEmailAddress toLower (TrimSpace (toLower formUsername)) formDomain
        = TrimSpace (toLower formUsername) ++ str "@" ++ formDomain) ∧
    (str "@" ++ formDomain)
      <:+ EmailServer.createEmailAddress toLower (TrimSpace (toLower formUsername))
        formDomain ∧
    64 ∈ EmailServer.createEmailAddress toLower (TrimSpace (toLower formUsername))
      formDomain ∧
    2 ≤ (Split (EmailServer.createEmailAddress toLower (TrimSpace (toLower formUsername))
      formDomain) 64).length ∧
    (∃ addr, splitAddress
      (EmailServer.createEmailAddress toLower (TrimSpace (toLower formUsername)) formDomain)
        = some addr) ∧
    (EmailServer.registerHandler toLower generate db plan formUsername formDomain
      formPassword).2 ≠ RegisterResponse.allFieldsRequired ∧
    (EmailServer.registerHandler toLower generate db plan formUsername formDomain
      formPassword).2 ≠ RegisterResponse.invalidDomain ∧
    (∀ email,
      (EmailServer.registerHandler toLower generate db plan formUsername formDomain
        formPassword).2 = RegisterResponse.created email →
      email
        = EmailServer.createEmailAddress toLower (TrimSpace (toLower formUsername))
          formDomain ∧
      ∃ u ∈ (EmailServer.registerHandler toLower generate db plan formUsername formDomain
          formPassword).1.users, u.email = email) := by
  have hne : formDomain ≠ [] := by
    intro h
    rw [h] at hd
    exact absurd hd (by decide)
  have hvalid : EmailServer.validDomain formDomain EmailServer.domains = true :=
    (validDomain_iff formDomain _).mpr hd
  have hiff : EmailServer.createEmailAddress toLower (TrimSpace (toLower formUsername))
        formDomain = TrimSpace (toLower formUsername) ++ str "@" ++ formDomain ↔
      toLower (TrimSpace (toLower formUsername)) = TrimSpace (toLower formUsername) := by
    simp only [EmailServer.createEmailAddress, List.append_assoc]
    exact List.append_left_inj _
  have hat : str "@" = [64] := by decide
  have h64 : 64 ∈ EmailServer.createEmailAddress toLower (TrimSpace (toLower formUsername))
      formDomain := by
    simp [EmailServer.createEmailAddress, hat]
  have hcases :
      (EmailServer.registerHandler toLower generate db plan formUsername formDomain
        formPassword).2 = RegisterResponse.errorCreatingAccount ∨
      (EmailServer.registerHandler toLower generate db plan formUsername formDomain
        formPassword).2 = RegisterResponse.addressExists ∨
      ((EmailServer.registerHandler toLower generate db plan formUsername formDomain
        formPassword).2
        = RegisterResponse.created
          (EmailServer.createEmailAddress toLower (TrimSpace (toLower formUsername))
            formDomain) ∧
       ∃ u ∈ (EmailServer.registerHandler toLower generate db plan formUsername formDomain
          formPassword).1.users,
          u.email
            = EmailServer.createEmailAddress toLower (TrimSpace (toLower formUsername))
              formDomain) := by
    simp only [EmailServer.registerHandler, hu, hne, hpw, hvalid, or_self, if_false,
      Bool.not_true, Bool.false_eq_true]
    cases hg : generate formPassword with
    | error e => exact Or.inl rfl
    | ok hashed =>
      cases hi : db.insertUser plan.pop.1 (TrimSpace (toLower formUsername))
          (EmailServer.createEmailAddress toLower (TrimSpace (toLower formUsername))
            formDomain) hashed with
      | error e =>
        simp only [hi]
        by_cases hcon : Contains e "UNIQUE constraint failed" = true
        · simp [hcon]
        · simp [hcon]
      | ok db2 =>
        obtain ⟨u, hu2, hue, _⟩ := insertUser_ok _ _ _ _ _ _ hi
        dsimp only
        rw [hi]
        exact Or.inr (Or.inr ⟨rfl, u, hu2, hue⟩)
  refine ⟨rfl, hiff, fun hlib => hiff.mpr (hlib formUsername), fun hfast hascii => ?_, ?_,
    h64, ?_, splitAddress_of_at _ h64, ?_, ?_, ?_⟩
  · apply hiff.mpr
    rw [hfast formUsername hascii,
      hfast _ (ascii_TrimSpace_ToLower formUsername hascii)]
    exact ToLower_TrimSpace_ToLower formUsername
  · simp only [EmailServer.createEmailAddress, List.append_assoc]
    exact List.suffix_append _ _
  · rw [length_Split]
    have := List.count_pos_iff.mpr h64
    omega
  · rcases hcases with h | h | ⟨h, _⟩ <;> rw [h] <;> simp
  · rcases hcases with h | h | ⟨h, _⟩ <;> rw [h] <;> simp
  · intro email he
    rcases hcases with h | h | ⟨h, hu3⟩
    · rw [h] at he; exact absurd he (by simp)
    · rw [h] at he; exact absurd he (by simp)
    · rw [h] at he
      simp only [RegisterResponse.created.injEq] at he
      subst he
      exact ⟨rfl, hu3⟩

/-- C28, for the form values `" Bob "`, `testmail.dev` and `pw` on an empty
store, where `strings.ToLower` acts on ASCII text as `ToLower` does: the
account `bob@testmail.dev` is created, its envelope address is `bob` at
`testmail.dev`, and the address is the user name, `@` and the domain. -/
theorem registered_address_splits_witness :
    EmailServer.registerHandler ToLower (fun p => .ok (str "hash:" ++ p)) ⟨[], [], 0, 7⟩ []
        (str " Bob ") (str "testmail.dev") (str "pw")
      = (⟨[⟨1, str "bob", str "bob@testmail.dev", str "hash:pw", 7⟩], [], 0, 7⟩,
         RegisterResponse.created (str "bob@testmail.dev")) ∧
    splitAddress (str "bob@testmail.dev") = some ⟨str "", str "bob", str "testmail.dev"⟩ ∧
    EmailServer.createEmailAddress ToLower (TrimSpace (ToLower (str " Bob ")))
        (str "testmail.dev")
      = TrimSpace (ToLower (str " Bob ")) ++ str "@" ++ str "testmail.dev" :=
  ⟨by decide, by decide,
   (registered_address_splits ToLower (fun p => .ok (str "hash:" ++ p)) ⟨[], [], 0, 7⟩ []
     (str " Bob ") (str "testmail.dev") (str "pw") (by decide) (by decide)
     (by decide)).2.2.1 ToLower_TrimSpace_ToLower⟩

end MailServer
